import Mathlib

set_option allowUnsafeReducibility true

attribute [local semireducible] Rat.add Rat.mul Rat.inv Rat.sub

/-!
# Verification of the Poker-Equity-Server core

Shallow embedding of the game-phase state machine, equity estimation engine,
showdown resolver, visibility resolver and position resolver of the
Poker-Equity-Server repository (src/app.py, src/equity.py, src/server/app.py,
src/server/equity.py), together with theorems settling the specified
properties.

Conventions of the embedding:
- Card identifiers are the two-character strings of `fresh_deck` ("2c" .. "As").
- Python floats are modelled as rationals.
- The treys hand evaluator is an external collaborator; it is modelled as a
  parameter `score : List String → List String → Int` (hole cards, board →
  strictly ordered strength score, lower is better).
- `random.shuffle` is modelled by passing the shuffled deck (a permutation of
  `fresh_deck`) as an argument; the random `Deck()` draws inside the Monte
  Carlo loop are modelled by passing the list of simulated board completions
  as an argument.
- Python dicts keyed by player name are modelled as association lists in seat
  order (player names are required to be unique by the configuration
  contract, under which the two representations agree).
-/

/-! ## Constants (src/app.py top level) -/

def INFO_FULL : String := "FULL"

def INFO_DELAYED : String := "DELAYED_EQUITY"

/-- The PHASE_BACK dict: `.get` semantics, "PREFLOP" maps to the falsy None. -/
def PHASE_BACK (p : String) : Option String :=
  if p = "FLOP" then some "PREFLOP"
  else if p = "TURN" then some "FLOP"
  else if p = "RIVER" then some "TURN"
  else if p = "SHOWDOWN" then some "RIVER"
  else none

def RANKS : List Char := "23456789TJQKA".toList

def SUITS : List Char := "cdhs".toList

def fresh_deck : List String :=
  RANKS.flatMap (fun r => SUITS.map (fun su => String.mk [r, su]))

/-- POSITION_MAP dict: fixed label lists per table size 2–10. -/
def POSITION_MAP (n : Nat) : Option (List String) :=
  if n = 2 then some ["BTN", "BB"]
  else if n = 3 then some ["BTN", "SB", "BB"]
  else if n = 4 then some ["BTN", "SB", "BB", "UTG"]
  else if n = 5 then some ["BTN", "SB", "BB", "UTG", "CO"]
  else if n = 6 then some ["BTN", "SB", "BB", "UTG", "HJ", "CO"]
  else if n = 7 then some ["BTN", "SB", "BB", "UTG", "UTG+1", "HJ", "CO"]
  else if n = 8 then some ["BTN", "SB", "BB", "UTG", "UTG+1", "UTG+2", "HJ", "CO"]
  else if n = 9 then some ["BTN", "SB", "BB", "UTG", "UTG+1", "UTG+2", "UTG+3", "HJ", "CO"]
  else if n = 10 then some ["BTN", "SB", "BB", "UTG", "UTG+1", "UTG+2", "UTG+3", "UTG+4", "HJ", "CO"]
  else none

/-- `get_positions` of src/app.py: on an unsupported table size it falls back
to generated labels ["BTN", "Seat2", ..., "SeatN"] instead of failing. -/
def get_positions (players : List String) (button_index : Int) : List (String × String) :=
  let n := players.length
  let labels :=
    match POSITION_MAP n with
    | some ls => ls
    | none => "BTN" :: (List.range' 2 (n - 1)).map (fun i => "Seat" ++ toString i)
  (List.range n).map (fun (i : Nat) =>
    (players.getD (((button_index + (i : Int)) % (n : Int)).toNat) "",
     labels.getD i ""))

/-- `get_positions` of src/server/app.py: labels come from the same table but
via `.get(n, [])`, so an unsupported size yields the empty mapping. -/
def get_positions_server (players : List String) (button_index : Int) : List (String × String) :=
  let n := players.length
  let labels := (POSITION_MAP n).getD []
  (List.range labels.length).map (fun (i : Nat) =>
    (players.getD (((button_index + (i : Int)) % (n : Int)).toNat) "",
     labels.getD i ""))

/-! ## Session state (the game_state dict of src/app.py) -/

/-- One cached per-street equity result (the dict stored in equity_by_phase). -/
@[ext]
structure Snapshot where
  equities : List ℚ
  hand_ranks : List (String × String)
  tie_probability : ℚ
deriving DecidableEq, Repr

@[ext]
structure GameState where
  version : Nat
  info_mode : String
  players : List String
  button_index : Int
  phase : String
  manual_button : Bool
  deck : List String
  deck_pointer : Nat
  burned : List String
  hands : List (String × List String)
  board : List String
  equity_by_phase : List (String × Snapshot)
  last_completed_phase : Option String
  display_equities : List ℚ
  display_hand_ranks : List (String × String)
  tie_probability : ℚ
deriving DecidableEq, Repr

/-- Association-list lookup (Python dict `.get(k)`). -/
def lookupAssoc (l : List (String × Snapshot)) (k : String) : Option Snapshot :=
  match l.find? (fun e => e.1 = k) with
  | some e => some e.2
  | none => none

/-- Association-list lookup for hands with Python `d[k]` defaulting. -/
def lookupHand (l : List (String × List String)) (k : String) : List String :=
  match l.find? (fun e => e.1 = k) with
  | some e => e.2
  | none => []

/-- Replace the value at the first matching key (Python `d[k] = ...` on a
present key), used on append-to-hand updates. -/
def updateAssoc (k : String) (f : List String → List String) :
    List (String × List String) → List (String × List String)
  | [] => []
  | e :: rest =>
    if e.1 = k then (e.1, f e.2) :: rest else e :: updateAssoc k f rest

/-- Insert-or-replace for the equity cache (`d[k] = v`). -/
def setSnap (l : List (String × Snapshot)) (k : String) (v : Snapshot) :
    List (String × Snapshot) :=
  match l with
  | [] => [(k, v)]
  | e :: rest => if e.1 = k then (k, v) :: rest else e :: setSnap rest k v

/-! ## Dealing (src/app.py) -/

def bump_version (s : GameState) : GameState :=
  { s with version := s.version + 1 }

/-- `scan_full_deck_sim`: the shuffled fresh deck is passed in (randomness is
external); theorems require it to be a permutation of `fresh_deck`. -/
def scan_full_deck_sim (shuffled : List String) (s : GameState) : GameState :=
  { s with deck := shuffled, deck_pointer := 0, burned := [] }

def scan_next_card (s : GameState) : String × GameState :=
  (s.deck.getD s.deck_pointer "", { s with deck_pointer := s.deck_pointer + 1 })

def burn_card (s : GameState) : GameState :=
  let sc := scan_next_card s
  { sc.2 with burned := sc.2.burned ++ [sc.1] }

/-- One iteration of the inner dealing loop: deal one card to the seat at
offset `i` from `start`. -/
def deal_one (players : List String) (start : Int)
    (acc : List (String × List String) × GameState) (i : Nat) :
    List (String × List String) × GameState :=
  let n := players.length
  let p := players.getD (((start + (i : Int)) % (n : Int)).toNat) ""
  let sc := scan_next_card acc.2
  (updateAssoc p (fun cs => cs ++ [sc.1]) acc.1, sc.2)

def deal_round (players : List String) (start : Int)
    (acc : List (String × List String) × GameState) :
    List (String × List String) × GameState :=
  (List.range players.length).foldl (deal_one players start) acc

def deal_hole_cards (s : GameState) : GameState :=
  let n := s.players.length
  let start := (s.button_index + 1) % (n : Int)
  let initHands : List (String × List String) := s.players.map (fun p => (p, []))
  let res := (List.range 2).foldl (fun acc _ => deal_round s.players start acc) (initHands, s)
  { res.2 with hands := res.1, phase := "PREFLOP" }

def deal_flop (s : GameState) : GameState :=
  let s1 := burn_card s
  let c1 := scan_next_card s1
  let c2 := scan_next_card c1.2
  let c3 := scan_next_card c2.2
  { c3.2 with board := [c1.1, c2.1, c3.1], phase := "FLOP" }

def deal_turn (s : GameState) : GameState :=
  let s1 := burn_card s
  let c := scan_next_card s1
  { c.2 with board := c.2.board ++ [c.1], phase := "TURN" }

def deal_river (s : GameState) : GameState :=
  let s1 := burn_card s
  let c := scan_next_card s1
  { c.2 with board := c.2.board ++ [c.1], phase := "RIVER" }

/-! ## Showdown resolver (src/app.py resolve_showdown; identical in
src/server/app.py) -/

def resolve_showdown (score : List String → List String → Int) (g : GameState) : GameState :=
  let scores := g.players.map (fun p => (p, score (lookupHand g.hands p) g.board))
  let best := (scores.map Prod.snd).min?.getD 0
  let winners := (scores.filter (fun ps => ps.2 = best)).map Prod.fst
  let share := (100 : ℚ) / (winners.length : ℚ)
  { g with
    display_equities := g.players.map (fun p => if p ∈ winners then share else 0),
    tie_probability := if winners.length > 1 then (100 : ℚ) else 0 }

/-! ## Game init (src/app.py start_new_game) -/

def start_new_game (players : List String) (button_index : Int)
    (info_mode : String) (manual_button : Bool) : GameState :=
  { version := 0
    info_mode := info_mode
    players := players
    button_index := button_index
    phase := "WAITING"
    manual_button := manual_button
    deck := []
    deck_pointer := 0
    burned := []
    hands := []
    board := []
    equity_by_phase := []
    last_completed_phase := none
    display_equities := List.replicate players.length 0
    display_hand_ranks := []
    tie_probability := 0 }

/-! ## Visibility resolver (src/app.py resolve_display_info) -/

def resolve_display_info (g : GameState) : Option Snapshot :=
  if g.info_mode = INFO_FULL then lookupAssoc g.equity_by_phase g.phase
  else if g.info_mode = INFO_DELAYED then
    match PHASE_BACK g.phase with
    | none => none
    | some prev => lookupAssoc g.equity_by_phase prev
  else none

/-! ## Equity engine

Two variants live in the repository: src/equity.py (imported by src/app.py)
and src/server/equity.py (imported by src/server/app.py).  They differ in how
a tied trial is credited.  The random board completions drawn from `Deck()`
inside the loop are passed in as the list `draws` (one completion suffix per
trial); the number of trials is `draws.length`.  The hand-descriptor mapping
returned alongside the numbers is independent of the Monte Carlo computation
and is not modelled here. -/

/-- Add `x` to entry `i` of a credit list (`wins[i] += x`). -/
def incAt : List ℚ → Nat → ℚ → List ℚ
  | [], _, _ => []
  | q :: rest, 0, x => (q + x) :: rest
  | q :: rest, Nat.succ i, x => q :: incAt rest i x

/-- The co-best player indices of one trial (both variants compute this the
same way: indices whose score equals the minimum score). -/
def trialWinners (score : List String → List String → Int)
    (hands : List (List String)) (simBoard : List String) : List Nat :=
  let scores := hands.map (fun h => score h simBoard)
  let min_score := scores.min?.getD 0
  (List.range scores.length).filter (fun i => scores.getD i 0 = min_score)

/-- One Monte Carlo trial of src/equity.py: a sole winner gets one full win,
a tied trial increments only the tie counter. -/
def sim_trial_root (score : List String → List String → Int)
    (hands : List (List String)) (board : List String)
    (acc : List ℚ × Nat) (draw : List String) : List ℚ × Nat :=
  let sim_board := board ++ draw
  let winners := trialWinners score hands sim_board
  if winners.length = 1 then (incAt acc.1 (winners.getD 0 0) 1, acc.2)
  else (acc.1, acc.2 + 1)

/-- One Monte Carlo trial of src/server/equity.py: every co-best player gets
an equal share of one unit of credit, and a tied trial additionally
increments the tie counter. -/
def sim_trial_server (score : List String → List String → Int)
    (hands : List (List String)) (board : List String)
    (acc : List ℚ × Nat) (draw : List String) : List ℚ × Nat :=
  let sim_board := board ++ draw
  let winners := trialWinners score hands sim_board
  let share := (1 : ℚ) / (winners.length : ℚ)
  (winners.foldl (fun ws w => incAt ws w share) acc.1,
   if winners.length > 1 then acc.2 + 1 else acc.2)

/-- `calculate_equity_multi` of src/equity.py (win/tie percentages). -/
def calculate_equity_multi_root (score : List String → List String → Int)
    (hands : List (List String)) (board : List String)
    (draws : List (List String)) : List ℚ × ℚ :=
  let init : List ℚ × Nat := (List.replicate hands.length 0, 0)
  let res := draws.foldl (sim_trial_root score hands board) init
  (res.1.map (fun w => w / (draws.length : ℚ) * 100),
   (res.2 : ℚ) / (draws.length : ℚ) * 100)

/-- `calculate_equity_multi` of src/server/equity.py (win/tie percentages). -/
def calculate_equity_multi_server (score : List String → List String → Int)
    (hands : List (List String)) (board : List String)
    (draws : List (List String)) : List ℚ × ℚ :=
  let init : List ℚ × Nat := (List.replicate hands.length 0, 0)
  let res := draws.foldl (sim_trial_server score hands board) init
  (res.1.map (fun w => w / (draws.length : ℚ) * 100),
   (res.2 : ℚ) / (draws.length : ℚ) * 100)

/-- Win credit a single trial of src/equity.py assigns to player index `i`:
one unit when `i` is the sole co-best player, nothing otherwise. -/
def trial_credit_root (score : List String → List String → Int)
    (hands : List (List String)) (board draw : List String) (i : Nat) : ℚ :=
  if trialWinners score hands (board ++ draw) = [i] then 1 else 0

/-- Win credit a single trial of src/server/equity.py assigns to player
index `i`: an equal share of one unit among the co-best players. -/
def trial_credit_server (score : List String → List String → Int)
    (hands : List (List String)) (board draw : List String) (i : Nat) : ℚ :=
  if i ∈ trialWinners score hands (board ++ draw)
  then 1 / ((trialWinners score hands (board ++ draw)).length : ℚ) else 0

/-- Whether a trial counts for the tie counter: two or more co-best players. -/
def trial_is_tie (score : List String → List String → Int)
    (hands : List (List String)) (board draw : List String) : Bool :=
  2 ≤ (trialWinners score hands (board ++ draw)).length

/-- Spec-side formulation of the showdown scores (per seat, in seat order). -/
def showdownScores (score : List String → List String → Int) (g : GameState) : List Int :=
  g.players.map (fun p => score (lookupHand g.hands p) g.board)

/-- The single globally best (minimal) showdown score. -/
def showdownBest (score : List String → List String → Int) (g : GameState) : Int :=
  (showdownScores score g).min?.getD 0

/-- How many seats attain the best showdown score. -/
def showdownWinnerCount (score : List String → List String → Int) (g : GameState) : Nat :=
  ((showdownScores score g).filter (fun sc => sc = showdownBest score g)).length

/-! ## Routes of src/app.py -/

/-- Python str.strip(): remove leading and trailing whitespace. -/
def strip (s : String) : String :=
  String.mk ((s.data.dropWhile (fun c => c.isWhitespace)).reverse.dropWhile
    (fun c => c.isWhitespace)).reverse


/-- POST /host/config of src/app.py.  `prior` is the module-level game_state
before the request; the result pairs the game_state after the request with
whether a session was created (False models the 400 response). -/
def host_config (prior : Option GameState) (playersRaw : List String)
    (buttonIndexRaw : Int) (info_modeRaw : String) (shuffled : List String) :
    Option GameState × Bool :=
  let players := playersRaw.map (fun p => strip p)
  if players.length < 2 ∨ players.length > 10 ∨ players.any (fun p => p = "") then
    (prior, false)
  else
    let info_mode :=
      if info_modeRaw = INFO_FULL ∨ info_modeRaw = INFO_DELAYED then info_modeRaw
      else INFO_DELAYED
    let n := players.length
    let button_index := buttonIndexRaw % (n : Int)
    let s1 := start_new_game players button_index info_mode false
    let s2 := scan_full_deck_sim shuffled s1
    let s3 := deal_hole_cards s2
    (some (bump_version s3), true)

/-- POST /host/config of src/server/app.py.  When a game already exists the
route is locked behind the host code and no branch mutates the session, so
the prior state is returned unchanged; with no game it validates only the
player count (there is no blank-name check in this variant). -/
def host_config_server (prior : Option GameState) (playersRaw : List String)
    (buttonIndexRaw : Int) (info_modeRaw : String) (shuffled : List String) :
    Option GameState × Bool :=
  match prior with
  | some g => (some g, false)
  | none =>
    let players := playersRaw.map (fun p => strip p)
    if ¬ (2 ≤ players.length ∧ players.length ≤ 10) then (none, false)
    else
      let info_mode :=
        if info_modeRaw = INFO_FULL ∨ info_modeRaw = INFO_DELAYED then info_modeRaw
        else INFO_DELAYED
      let button_index := buttonIndexRaw % (players.length : Int)
      let s1 := start_new_game players button_index info_mode false
      let s2 := scan_full_deck_sim shuffled s1
      let s3 := deal_hole_cards s2
      (some (bump_version s3), true)

/-- The force_button branch of POST /host (src/app.py host_view). -/
def force_button_step (shuffled : List String) (seat : Int) (s : GameState) : GameState :=
  let n := s.players.length
  let new_btn := seat % (n : Int)
  let s1 := start_new_game s.players new_btn s.info_mode true
  let s2 := scan_full_deck_sim shuffled s1
  let s3 := deal_hole_cards s2
  bump_version s3

/-- The action == "advance" branch of POST /host (src/app.py host_view). -/
def advance_step (shuffled : List String) (s : GameState) : GameState :=
  let n := s.players.length
  if s.phase = "WAITING" ∨ s.phase = "SHOWDOWN" then
    let next_btn :=
      if s.manual_button then s.button_index else (s.button_index - 1) % (n : Int)
    let s1 := start_new_game s.players next_btn s.info_mode false
    let s2 := scan_full_deck_sim shuffled s1
    let s3 := deal_hole_cards s2
    bump_version s3
  else if s.phase = "PREFLOP" then bump_version (deal_flop s)
  else if s.phase = "FLOP" then bump_version (deal_turn s)
  else if s.phase = "TURN" then bump_version (deal_river s)
  else if s.phase = "RIVER" then bump_version { s with phase := "SHOWDOWN" }
  else bump_version s

/-- GET /host of src/app.py: the equity / showdown resolution performed on
every state read.  `mc` stands for the snapshot `calculate_equity_multi`
returns for the current street if the per-street cache misses (its equities,
descriptor map and tie probability; the Monte Carlo randomness makes it a
parameter of the read). -/
def host_get_core (score : List String → List String → Int) (mc : Snapshot)
    (s : GameState) : GameState :=
  let n := s.players.length
  if s.phase = "SHOWDOWN" then
    let sA := resolve_showdown score s
    { sA with
      equity_by_phase := setSnap sA.equity_by_phase sA.phase
        ⟨sA.display_equities, sA.display_hand_ranks, sA.tie_probability⟩,
      last_completed_phase := some "SHOWDOWN" }
  else if s.phase ∈ (["PREFLOP", "FLOP", "TURN", "RIVER"] : List String) then
    let sC :=
      if lookupAssoc s.equity_by_phase s.phase = none then
        { s with
          equity_by_phase := s.equity_by_phase ++ [(s.phase, mc)],
          last_completed_phase := some s.phase }
      else s
    match resolve_display_info sC with
    | some info =>
      { sC with
        display_equities := info.equities,
        display_hand_ranks := info.hand_ranks,
        tie_probability := info.tie_probability }
    | none =>
      { sC with
        display_equities := List.replicate n 0,
        display_hand_ranks := [],
        tie_probability := 0 }
  else
    { s with
      display_equities := List.replicate n 0,
      display_hand_ranks := [],
      tie_probability := 0 }

/-- GET /host of src/app.py: `host_get_core` mutates the display/cache fields
exactly as the route body does, and the final conditional bump compares the
new display against the values captured before the read. -/
def host_get (score : List String → List String → Int) (mc : Snapshot)
    (s : GameState) : GameState :=
  if (host_get_core score mc s).display_equities ≠ s.display_equities ∨
      (host_get_core score mc s).tie_probability ≠ s.tie_probability then
    bump_version (host_get_core score mc s)
  else host_get_core score mc s

/-- GET /game_state (identical in src/app.py and src/server/app.py): a copy
of the whole session dict; in delayed mode the hands and the descriptor map
are emptied, every other field (including the shuffled deck and the deck
pointer) is passed through. -/
def game_state_json (s : GameState) : GameState :=
  if s.info_mode = INFO_DELAYED then { s with hands := [], display_hand_ranks := [] }
  else s

/-- Reconstruction of every player's hole cards from the fields that
/game_state publishes in delayed mode: replaying the (deterministic) dealing
procedure on the published deck, players and button index. -/
def recoverHands (pub : GameState) : List (String × List String) :=
  (deal_hole_cards { pub with deck_pointer := 0, hands := [] }).hands

/-! ## Reachable session states of src/app.py -/

/-- All hole cards currently dealt, in dict order. -/
def handsJoin (s : GameState) : List String :=
  (s.hands.map Prod.snd).flatten

/-- The session states reachable through the boundary operations of
src/app.py: a successful /host/config POST, then any interleaving of advance
POSTs, force_button POSTs and host GET reads.  Each new hand receives an
arbitrary permutation of the fresh deck (random.shuffle), and each GET may
observe an arbitrary Monte Carlo snapshot for a cache miss. -/
inductive Reachable : GameState → Prop where
  | init (playersRaw : List String) (b : Int) (mode : String)
      (shuffled : List String) (s : GameState) :
      shuffled.Perm fresh_deck →
      host_config none playersRaw b mode shuffled = (some s, true) →
      Reachable s
  | advance (s : GameState) (shuffled : List String) :
      Reachable s → shuffled.Perm fresh_deck →
      Reachable (advance_step shuffled s)
  | force (s : GameState) (shuffled : List String) (seat : Int) :
      Reachable s → shuffled.Perm fresh_deck →
      Reachable (force_button_step shuffled seat s)
  | get (s : GameState) (score : List String → List String → Int) (mc : Snapshot) :
      Reachable s → Reachable (host_get score mc s)

/-! ## Concrete example session (players "A" and "B", delayed mode, identity
shuffle) used for witnesses and counterexamples.  The host configures the
table, then alternates GET reads and advance actions through a full hand. -/

/-- A concrete evaluator: the hand ["2d", "2s"] (player A's hole cards under
the identity shuffle) beats everything else. -/
def exScore : List String → List String → Int :=
  fun h _ => if h = ["2d", "2s"] then 0 else 1

/-- An evaluator under which every hand ties. -/
def exTieScore : List String → List String → Int := fun _ _ => 0

/-- A concrete board completion used for single-trial equity calls. -/
def exDraw : List String := ["2c", "2d", "2h", "2s", "3c"]

def exMCP : Snapshot := ⟨[55, 45], [("A", "High Card A")], 3⟩

def exMCF : Snapshot := ⟨[65, 35], [("A", "Pair of 2s")], 2⟩

def exMCT : Snapshot := ⟨[70, 30], [("A", "Pair of 2s")], 1⟩

def exMCR : Snapshot := ⟨[60, 40], [("A", "Pair of 2s")], 5⟩

def exS0 : GameState :=
  ((host_config none ["A", "B"] 0 INFO_DELAYED fresh_deck).1).getD
    (start_new_game [] 0 "" false)

def exS1 : GameState := host_get exScore exMCP exS0

def exS2 : GameState := advance_step fresh_deck exS1

def exS3 : GameState := host_get exScore exMCF exS2

def exS4 : GameState := advance_step fresh_deck exS3

def exS5 : GameState := host_get exScore exMCT exS4

def exS6 : GameState := advance_step fresh_deck exS5

def exS7 : GameState := host_get exScore exMCR exS6

def exS8 : GameState := advance_step fresh_deck exS7

def exS9 : GameState := host_get exScore exMCR exS8

/-- A concrete showdown fixture: two players holding equal-strength hands on
a full board. -/
def exTieState : GameState :=
  { version := 7
    info_mode := INFO_FULL
    players := ["A", "B"]
    button_index := 0
    phase := "SHOWDOWN"
    manual_button := false
    deck := fresh_deck
    deck_pointer := 12
    burned := ["5c", "6c", "7c"]
    hands := [("A", ["2c", "2d"]), ("B", ["2h", "2s"])]
    board := ["3c", "3d", "4c", "4d", "8c"]
    equity_by_phase := []
    last_completed_phase := none
    display_equities := [0, 0]
    display_hand_ranks := []
    tie_probability := 0 }

/-! ## Helper lemmas about the small list operations -/

theorem incAt_length (l : List ℚ) (i : Nat) (x : ℚ) : (incAt l i x).length = l.length := by
  induction l generalizing i with
  | nil => rfl
  | cons q rest ih =>
    cases i with
    | zero => rfl
    | succ j => simpa [incAt] using ih j

theorem incAt_getD (l : List ℚ) (i j : Nat) (x : ℚ) (hj : j < l.length) :
    (incAt l i x).getD j 0 = l.getD j 0 + (if j = i then x else 0) := by
  induction l generalizing i j with
  | nil => simp at hj
  | cons q rest ih =>
    cases i with
    | zero =>
      cases j with
      | zero => simp [incAt]
      | succ j' => simp [incAt, List.getD]
    | succ i' =>
      cases j with
      | zero => simp [incAt, List.getD]
      | succ j' =>
        have := ih i' j' (by simpa using hj)
        simpa [incAt, List.getD, Nat.succ_inj] using this

theorem incAt_sum (l : List ℚ) (i : Nat) (x : ℚ) (hi : i < l.length) :
    (incAt l i x).sum = l.sum + x := by
  induction l generalizing i with
  | nil => simp at hi
  | cons q rest ih =>
    cases i with
    | zero => simp [incAt]; ring
    | succ i' =>
      have := ih i' (by simpa using hi)
      simp [incAt, this]; ring

theorem incAt_mem_nonneg (l : List ℚ) (i : Nat) (x : ℚ) (hx : 0 ≤ x)
    (hl : ∀ q ∈ l, 0 ≤ q) : ∀ q ∈ incAt l i x, 0 ≤ q := by
  induction l generalizing i with
  | nil => simp [incAt]
  | cons a rest ih =>
    cases i with
    | zero =>
      intro q hq
      rcases List.mem_cons.mp hq with h | h
      · have := hl a (by simp)
        subst h; positivity
      · exact hl q (by simp [h])
    | succ i' =>
      intro q hq
      rcases List.mem_cons.mp hq with h | h
      · exact h ▸ hl a (by simp)
      · exact ih i' (fun r hr => hl r (by simp [hr])) q h

theorem updateAssoc_keys (k : String) (f : List String → List String)
    (l : List (String × List String)) :
    (updateAssoc k f l).map Prod.fst = l.map Prod.fst := by
  induction l with
  | nil => rfl
  | cons e rest ih =>
    by_cases h : e.1 = k <;> simp [updateAssoc, h, ih]

theorem updateAssoc_cons_pos (k : String) (f : List String → List String)
    (e : String × List String) (rest : List (String × List String)) (h : e.1 = k) :
    updateAssoc k f (e :: rest) = (e.1, f e.2) :: rest := by
  simp [updateAssoc, h]

theorem updateAssoc_cons_neg (k : String) (f : List String → List String)
    (e : String × List String) (rest : List (String × List String)) (h : ¬ e.1 = k) :
    updateAssoc k f (e :: rest) = e :: updateAssoc k f rest := by
  simp [updateAssoc, h]

theorem updateAssoc_flatten (k : String) (c : String)
    (l : List (String × List String)) (hk : k ∈ l.map Prod.fst) :
    (((updateAssoc k (fun cs => cs ++ [c]) l).map Prod.snd).flatten : Multiset String)
      = ((l.map Prod.snd).flatten : List String) + ([c] : List String) := by
  induction l with
  | nil => simp at hk
  | cons e rest ih =>
    by_cases h : e.1 = k
    · rw [updateAssoc_cons_pos k _ e rest h]
      simp only [List.map_cons, List.flatten_cons]
      simp only [← Multiset.coe_add, Multiset.coe_singleton]
      abel
    · have hk' : k ∈ rest.map Prod.fst := by
        rcases List.mem_cons.mp hk with h' | h'
        · exact absurd h'.symm h
        · exact h'
      rw [updateAssoc_cons_neg k _ e rest h]
      simp only [List.map_cons, List.flatten_cons]
      simp only [← Multiset.coe_add]
      rw [ih hk']
      simp only [← Multiset.coe_add, Multiset.coe_singleton]
      abel

theorem getD_map_range {α : Type} (n : Nat) (f : Nat → α) (i : Nat) (d : α) (hi : i < n) :
    ((List.range n).map f).getD i d = f i := by
  rw [List.getD_eq_getElem _ _ (by simpa using hi)]
  simp

theorem map_range_getD {α : Type} [Inhabited α] (l : List α) (d : α) :
    (List.range l.length).map (fun i => l.getD i d) = l := by
  apply List.ext_getElem
  · simp
  · intro i h1 h2
    simp [List.getD_eq_getElem l d h2, List.getElem?_eq_getElem h2]

/-- The index of a dealt seat is always a valid player index. -/
theorem deal_index_lt (start : Int) (i n : Nat) (hn : 0 < n) :
    ((start + (i : Int)) % (n : Int)).toNat < n := by
  have hnz : (n : Int) ≠ 0 := by exact_mod_cast hn.ne'
  have h1 : 0 ≤ (start + (i : Int)) % (n : Int) := Int.emod_nonneg _ hnz
  have h2 : (start + (i : Int)) % (n : Int) < (n : Int) :=
    Int.emod_lt_of_pos _ (by exact_mod_cast hn)
  omega

theorem sum_map_scale (l : List ℚ) (c : ℚ) :
    (l.map (fun w => w / c * 100)).sum = l.sum / c * 100 := by
  induction l with
  | nil => simp
  | cons q rest ih => simp [ih]; ring

/-! ## Equations for the dealing operations -/

theorem burn_card_eq (s : GameState) :
    burn_card s =
      { s with deck_pointer := s.deck_pointer + 1,
               burned := s.burned ++ [s.deck.getD s.deck_pointer ""] } := rfl

theorem deal_flop_eq (s : GameState) :
    deal_flop s =
      { s with deck_pointer := s.deck_pointer + 1 + 1 + 1 + 1,
               burned := s.burned ++ [s.deck.getD s.deck_pointer ""],
               board := [s.deck.getD (s.deck_pointer + 1) "",
                         s.deck.getD (s.deck_pointer + 1 + 1) "",
                         s.deck.getD (s.deck_pointer + 1 + 1 + 1) ""],
               phase := "FLOP" } := by
  simp only [deal_flop, burn_card, scan_next_card]

theorem deal_turn_eq (s : GameState) :
    deal_turn s =
      { s with deck_pointer := s.deck_pointer + 1 + 1,
               burned := s.burned ++ [s.deck.getD s.deck_pointer ""],
               board := s.board ++ [s.deck.getD (s.deck_pointer + 1) ""],
               phase := "TURN" } := by
  simp only [deal_turn, burn_card, scan_next_card]

theorem deal_river_eq (s : GameState) :
    deal_river s =
      { s with deck_pointer := s.deck_pointer + 1 + 1,
               burned := s.burned ++ [s.deck.getD s.deck_pointer ""],
               board := s.board ++ [s.deck.getD (s.deck_pointer + 1) ""],
               phase := "RIVER" } := by
  simp only [deal_river, burn_card, scan_next_card]

theorem deal_one_eq (players : List String) (start : Int)
    (h : List (String × List String)) (s : GameState) (i : Nat) :
    deal_one players start (h, s) i =
      (updateAssoc (players.getD (((start + (i : Int)) % ((players.length : Nat) : Int)).toNat) "")
        (fun cs => cs ++ [s.deck.getD s.deck_pointer ""]) h,
       { s with deck_pointer := s.deck_pointer + 1 }) := rfl

theorem foldl_deal_one_state (players : List String) (start : Int) (is : List Nat) :
    ∀ (h : List (String × List String)) (s : GameState),
      (is.foldl (deal_one players start) (h, s)).2 =
        { s with deck_pointer := s.deck_pointer + is.length } := by
  induction is with
  | nil => intro h s; rfl
  | cons i is ih =>
    intro h s
    rw [List.foldl_cons, deal_one_eq, ih]
    ext <;> simp <;> omega

theorem foldl_deal_one_flatten (players : List String) (start : Int) (is : List Nat) :
    ∀ (h : List (String × List String)) (s : GameState),
      0 < players.length → h.map Prod.fst = players →
      s.deck_pointer + is.length ≤ s.deck.length →
      ((is.foldl (deal_one players start) (h, s)).1.map Prod.fst = players ∧
       ((((is.foldl (deal_one players start) (h, s)).1.map Prod.snd).flatten : List String) : Multiset String)
         = (((h.map Prod.snd).flatten : List String) : Multiset String)
           + (((s.deck.drop s.deck_pointer).take is.length : List String) : Multiset String)) := by
  induction is with
  | nil =>
    intro h s _ hkeys _
    refine ⟨hkeys, ?_⟩
    simp
  | cons i is ih =>
    intro h s hn hkeys hlen
    have hidx : ((start + (i : Int)) % ((players.length : Nat) : Int)).toNat < players.length :=
      deal_index_lt start i players.length hn
    have hpmem : players.getD (((start + (i : Int)) % ((players.length : Nat) : Int)).toNat) "" ∈ players := by
      rw [List.getD_eq_getElem _ _ hidx]
      exact List.getElem_mem hidx
    have hkmem : players.getD (((start + (i : Int)) % ((players.length : Nat) : Int)).toNat) ""
        ∈ h.map Prod.fst := by rw [hkeys]; exact hpmem
    have hptr : s.deck_pointer < s.deck.length := by
      have := hlen; simp [List.length_cons] at this; omega
    rw [List.foldl_cons, deal_one_eq]
    have hkeys' : (updateAssoc (players.getD (((start + (i : Int)) % ((players.length : Nat) : Int)).toNat) "")
        (fun cs => cs ++ [s.deck.getD s.deck_pointer ""]) h).map Prod.fst = players := by
      rw [updateAssoc_keys]; exact hkeys
    have hlen' : ({ s with deck_pointer := s.deck_pointer + 1 } : GameState).deck_pointer + is.length
        ≤ ({ s with deck_pointer := s.deck_pointer + 1 } : GameState).deck.length := by
      simp [List.length_cons] at hlen ⊢; omega
    obtain ⟨ihk, ihf⟩ := ih _ _ hn hkeys' hlen'
    refine ⟨ihk, ?_⟩
    rw [ihf]
    rw [updateAssoc_flatten _ _ _ hkmem]
    have hdrop : s.deck.drop s.deck_pointer
        = s.deck[s.deck_pointer] :: s.deck.drop (s.deck_pointer + 1) :=
      List.drop_eq_getElem_cons hptr
    have htake : (s.deck.drop s.deck_pointer).take (i :: is).length
        = s.deck[s.deck_pointer] :: (s.deck.drop (s.deck_pointer + 1)).take is.length := by
      rw [hdrop, List.length_cons, List.take_succ_cons]
    rw [htake]
    have hc : s.deck.getD s.deck_pointer "" = s.deck[s.deck_pointer] :=
      List.getD_eq_getElem _ _ hptr
    rw [hc]
    have hcons : (s.deck[s.deck_pointer] :: (s.deck.drop (s.deck_pointer + 1)).take is.length)
        = [s.deck[s.deck_pointer]] ++ (s.deck.drop (s.deck_pointer + 1)).take is.length := rfl
    rw [hcons]
    simp only [← Multiset.coe_add]
    abel

theorem init_hands_keys (players : List String) :
    (players.map (fun p => (p, ([] : List String)))).map Prod.fst = players := by
  simp [Function.comp_def]

theorem init_hands_flatten (players : List String) :
    ((players.map (fun p => (p, ([] : List String)))).map Prod.snd).flatten = [] := by
  induction players with
  | nil => rfl
  | cons p rest ih => simpa using ih

theorem deal_round_state (players : List String) (start : Int)
    (h : List (String × List String)) (s : GameState) :
    (deal_round players start (h, s)).2 =
      { s with deck_pointer := s.deck_pointer + players.length } := by
  rw [deal_round, foldl_deal_one_state]
  simp

theorem deal_round_flatten (players : List String) (start : Int)
    (h : List (String × List String)) (s : GameState)
    (hn : 0 < players.length) (hkeys : h.map Prod.fst = players)
    (hlen : s.deck_pointer + players.length ≤ s.deck.length) :
    (deal_round players start (h, s)).1.map Prod.fst = players ∧
    ((((deal_round players start (h, s)).1.map Prod.snd).flatten : List String) : Multiset String)
      = (((h.map Prod.snd).flatten : List String) : Multiset String)
        + (((s.deck.drop s.deck_pointer).take players.length : List String) : Multiset String) := by
  have := foldl_deal_one_flatten players start (List.range players.length) h s hn hkeys
    (by simpa using hlen)
  simpa [deal_round] using this

theorem deal_hole_cards_unfold (s : GameState) :
    deal_hole_cards s =
      { (deal_round s.players ((s.button_index + 1) % ((s.players.length : Nat) : Int))
          (deal_round s.players ((s.button_index + 1) % ((s.players.length : Nat) : Int))
            (s.players.map (fun p => (p, [])), s))).2 with
        hands := (deal_round s.players ((s.button_index + 1) % ((s.players.length : Nat) : Int))
          (deal_round s.players ((s.button_index + 1) % ((s.players.length : Nat) : Int))
            (s.players.map (fun p => (p, [])), s))).1,
        phase := "PREFLOP" } := rfl

theorem deal_round_state2 (players : List String) (start : Int)
    (acc : List (String × List String) × GameState) :
    (deal_round players start acc).2 =
      { acc.2 with deck_pointer := acc.2.deck_pointer + players.length } :=
  deal_round_state players start acc.1 acc.2

theorem deal_round_flatten2 (players : List String) (start : Int)
    (acc : List (String × List String) × GameState)
    (hn : 0 < players.length) (hkeys : acc.1.map Prod.fst = players)
    (hlen : acc.2.deck_pointer + players.length ≤ acc.2.deck.length) :
    (deal_round players start acc).1.map Prod.fst = players ∧
    ((((deal_round players start acc).1.map Prod.snd).flatten : List String) : Multiset String)
      = (((acc.1.map Prod.snd).flatten : List String) : Multiset String)
        + (((acc.2.deck.drop acc.2.deck_pointer).take players.length : List String) : Multiset String) :=
  deal_round_flatten players start acc.1 acc.2 hn hkeys hlen

theorem deal_hole_cards_state (s : GameState) :
    deal_hole_cards s =
      { s with hands := (deal_hole_cards s).hands, phase := "PREFLOP",
               deck_pointer := s.deck_pointer + 2 * s.players.length } := by
  rw [deal_hole_cards_unfold, deal_round_state2, deal_round_state2]
  ext <;> simp [deal_hole_cards_unfold] <;> omega

theorem deal_hole_cards_hands (s : GameState) (hn : 0 < s.players.length)
    (hlen : s.deck_pointer + 2 * s.players.length ≤ s.deck.length) :
    (deal_hole_cards s).hands.map Prod.fst = s.players ∧
    ((handsJoin (deal_hole_cards s) : List String) : Multiset String)
      = (((s.deck.drop s.deck_pointer).take (2 * s.players.length) : List String) : Multiset String) := by
  have hst1 := deal_round_state2 s.players
    ((s.button_index + 1) % ((s.players.length : Nat) : Int))
    (s.players.map (fun p => (p, [])), s)
  have h1 := deal_round_flatten2 s.players
    ((s.button_index + 1) % ((s.players.length : Nat) : Int))
    (s.players.map (fun p => (p, [])), s) hn (init_hands_keys _) (by simp; omega)
  have h2 := deal_round_flatten2 s.players
    ((s.button_index + 1) % ((s.players.length : Nat) : Int))
    (deal_round s.players ((s.button_index + 1) % ((s.players.length : Nat) : Int))
      (s.players.map (fun p => (p, [])), s)) hn h1.1
    (by rw [hst1]
        show s.deck_pointer + s.players.length + s.players.length ≤ s.deck.length
        omega)
  have hhands : (deal_hole_cards s).hands =
      (deal_round s.players ((s.button_index + 1) % ((s.players.length : Nat) : Int))
        (deal_round s.players ((s.button_index + 1) % ((s.players.length : Nat) : Int))
          (s.players.map (fun p => (p, [])), s))).1 := by
    rw [deal_hole_cards_unfold]
  refine ⟨by rw [hhands]; exact h2.1, ?_⟩
  rw [handsJoin, hhands, h2.2, h1.2, init_hands_flatten, hst1]
  simp only [List.flatten_nil]
  have hcomb : (s.deck.drop s.deck_pointer).take (2 * s.players.length)
      = (s.deck.drop s.deck_pointer).take s.players.length
        ++ (s.deck.drop (s.deck_pointer + s.players.length)).take s.players.length := by
    rw [two_mul, List.take_add, List.drop_drop]
  rw [hcomb]
  simp only [← Multiset.coe_add]
  abel

/-! ## Field preservation through a state read -/

theorem resolve_showdown_fields (score : List String → List String → Int) (g : GameState) :
    (resolve_showdown score g).version = g.version ∧
    (resolve_showdown score g).info_mode = g.info_mode ∧
    (resolve_showdown score g).players = g.players ∧
    (resolve_showdown score g).button_index = g.button_index ∧
    (resolve_showdown score g).phase = g.phase ∧
    (resolve_showdown score g).manual_button = g.manual_button ∧
    (resolve_showdown score g).deck = g.deck ∧
    (resolve_showdown score g).deck_pointer = g.deck_pointer ∧
    (resolve_showdown score g).burned = g.burned ∧
    (resolve_showdown score g).hands = g.hands ∧
    (resolve_showdown score g).board = g.board :=
  ⟨rfl, rfl, rfl, rfl, rfl, rfl, rfl, rfl, rfl, rfl, rfl⟩

theorem host_get_core_fields (score : List String → List String → Int)
    (mc : Snapshot) (s : GameState) :
    (host_get_core score mc s).version = s.version ∧
    (host_get_core score mc s).info_mode = s.info_mode ∧
    (host_get_core score mc s).players = s.players ∧
    (host_get_core score mc s).button_index = s.button_index ∧
    (host_get_core score mc s).phase = s.phase ∧
    (host_get_core score mc s).manual_button = s.manual_button ∧
    (host_get_core score mc s).deck = s.deck ∧
    (host_get_core score mc s).deck_pointer = s.deck_pointer ∧
    (host_get_core score mc s).burned = s.burned ∧
    (host_get_core score mc s).hands = s.hands ∧
    (host_get_core score mc s).board = s.board := by
  simp only [host_get_core]
  split
  · exact ⟨rfl, rfl, rfl, rfl, rfl, rfl, rfl, rfl, rfl, rfl, rfl⟩
  · split
    · split <;> split <;> exact ⟨rfl, rfl, rfl, rfl, rfl, rfl, rfl, rfl, rfl, rfl, rfl⟩
    · exact ⟨rfl, rfl, rfl, rfl, rfl, rfl, rfl, rfl, rfl, rfl, rfl⟩

theorem host_get_fields (score : List String → List String → Int)
    (mc : Snapshot) (s : GameState) :
    (host_get score mc s).info_mode = s.info_mode ∧
    (host_get score mc s).players = s.players ∧
    (host_get score mc s).button_index = s.button_index ∧
    (host_get score mc s).phase = s.phase ∧
    (host_get score mc s).manual_button = s.manual_button ∧
    (host_get score mc s).deck = s.deck ∧
    (host_get score mc s).deck_pointer = s.deck_pointer ∧
    (host_get score mc s).burned = s.burned ∧
    (host_get score mc s).hands = s.hands ∧
    (host_get score mc s).board = s.board := by
  have hc := host_get_core_fields score mc s
  unfold host_get
  split
  · exact ⟨hc.2.1, hc.2.2.1, hc.2.2.2.1, hc.2.2.2.2.1, hc.2.2.2.2.2.1, hc.2.2.2.2.2.2.1,
      hc.2.2.2.2.2.2.2.1, hc.2.2.2.2.2.2.2.2.1, hc.2.2.2.2.2.2.2.2.2.1, hc.2.2.2.2.2.2.2.2.2.2⟩
  · exact ⟨hc.2.1, hc.2.2.1, hc.2.2.2.1, hc.2.2.2.2.1, hc.2.2.2.2.2.1, hc.2.2.2.2.2.2.1,
      hc.2.2.2.2.2.2.2.1, hc.2.2.2.2.2.2.2.2.1, hc.2.2.2.2.2.2.2.2.2.1, hc.2.2.2.2.2.2.2.2.2.2⟩

theorem host_get_display (score : List String → List String → Int)
    (mc : Snapshot) (s : GameState) :
    (host_get score mc s).display_equities = (host_get_core score mc s).display_equities ∧
    (host_get score mc s).tie_probability = (host_get_core score mc s).tie_probability := by
  unfold host_get
  split
  · exact ⟨rfl, rfl⟩
  · exact ⟨rfl, rfl⟩

theorem host_get_version_rule (score : List String → List String → Int)
    (mc : Snapshot) (s : GameState) :
    (host_get score mc s).version =
      (if (host_get score mc s).display_equities ≠ s.display_equities ∨
          (host_get score mc s).tie_probability ≠ s.tie_probability
       then s.version + 1 else s.version) := by
  have hv := (host_get_core_fields score mc s).1
  have hd := host_get_display score mc s
  rw [hd.1, hd.2]
  unfold host_get
  split
  · show (host_get_core score mc s).version + 1 = s.version + 1
    rw [hv]
  · exact hv

/-! ## The session invariant -/

/-- Board length prescribed by the spec for each phase. -/
def board_len_for (p : String) : Nat :=
  if p = "WAITING" ∨ p = "PREFLOP" then 0
  else if p = "FLOP" then 3
  else if p = "TURN" then 4
  else 5

/-- Burned-pile length per phase (one burn before each street). -/
def burned_len_for (p : String) : Nat :=
  if p = "PREFLOP" then 0
  else if p = "FLOP" then 1
  else if p = "TURN" then 2
  else 3

/-- Cards consumed beyond the hole cards, per phase. -/
def phase_extra (p : String) : Nat :=
  if p = "PREFLOP" then 0
  else if p = "FLOP" then 4
  else if p = "TURN" then 6
  else 8

/-- The invariant holding in every reachable session state of src/app.py. -/
structure SessionInv (s : GameState) : Prop where
  nlo : 2 ≤ s.players.length
  nhi : s.players.length ≤ 10
  phase5 : s.phase = "PREFLOP" ∨ s.phase = "FLOP" ∨ s.phase = "TURN" ∨
    s.phase = "RIVER" ∨ s.phase = "SHOWDOWN"
  deckperm : s.deck.Perm fresh_deck
  ptr : s.deck_pointer = 2 * s.players.length + phase_extra s.phase
  blen : s.board.length = board_len_for s.phase
  brlen : s.burned.length = burned_len_for s.phase
  keys : s.hands.map Prod.fst = s.players
  dealt : ((handsJoin s ++ s.burned ++ s.board : List String) : Multiset String)
    = ((s.deck.take s.deck_pointer : List String) : Multiset String)

theorem fresh_deck_length : fresh_deck.length = 52 := by decide

theorem fresh_deck_nodup : fresh_deck.Nodup := by decide

theorem drop_take_four (l : List String) (p : Nat) (h : p + 4 ≤ l.length) :
    (l.drop p).take 4 =
      [l.getD p "", l.getD (p + 1) "", l.getD (p + 1 + 1) "", l.getD (p + 1 + 1 + 1) ""] := by
  have h0 : p < l.length := by omega
  have h1 : p + 1 < l.length := by omega
  have h2 : p + 1 + 1 < l.length := by omega
  have h3 : p + 1 + 1 + 1 < l.length := by omega
  rw [List.drop_eq_getElem_cons h0, List.drop_eq_getElem_cons h1, List.drop_eq_getElem_cons h2,
    List.drop_eq_getElem_cons h3]
  rw [List.getD_eq_getElem _ _ h0, List.getD_eq_getElem _ _ h1,
    List.getD_eq_getElem _ _ h2, List.getD_eq_getElem _ _ h3]
  rfl

theorem drop_take_two (l : List String) (p : Nat) (h : p + 2 ≤ l.length) :
    (l.drop p).take 2 = [l.getD p "", l.getD (p + 1) ""] := by
  have h0 : p < l.length := by omega
  have h1 : p + 1 < l.length := by omega
  rw [List.drop_eq_getElem_cons h0, List.drop_eq_getElem_cons h1]
  rw [List.getD_eq_getElem _ _ h0, List.getD_eq_getElem _ _ h1]
  rfl

/-- Starting a new hand (start_new_game, scan_full_deck_sim, deal_hole_cards,
bump_version, exactly the sequence used by /host/config, the advance action
from WAITING/SHOWDOWN, and force_button) establishes the invariant. -/
theorem new_hand_inv (players : List String) (btn : Int) (mode : String)
    (manual : Bool) (shuffled : List String) (hperm : shuffled.Perm fresh_deck)
    (hlo : 2 ≤ players.length) (hhi : players.length ≤ 10) :
    SessionInv (bump_version (deal_hole_cards
      (scan_full_deck_sim shuffled (start_new_game players btn mode manual)))) := by
  have hdlen : shuffled.length = 52 := by rw [hperm.length_eq, fresh_deck_length]
  set s2 := scan_full_deck_sim shuffled (start_new_game players btn mode manual) with hs2
  have hs2players : s2.players = players := rfl
  have hs2deck : s2.deck = shuffled := rfl
  have hs2ptr : s2.deck_pointer = 0 := rfl
  have hs2board : s2.board = [] := rfl
  have hs2burned : s2.burned = [] := rfl
  have hbound : s2.deck_pointer + 2 * s2.players.length ≤ s2.deck.length := by
    rw [hs2ptr, hs2players, hs2deck, hdlen]; omega
  have hst := deal_hole_cards_state s2
  have hh := deal_hole_cards_hands s2 (by rw [hs2players]; omega) hbound
  refine ⟨?_, ?_, ?_, ?_, ?_, ?_, ?_, ?_, ?_⟩
  · show (deal_hole_cards s2).players.length ≥ 2
    rw [hst]; simpa [hs2players] using hlo
  · show (deal_hole_cards s2).players.length ≤ 10
    rw [hst]; simpa [hs2players] using hhi
  · left
    show (deal_hole_cards s2).phase = "PREFLOP"
    rw [hst]
  · show (deal_hole_cards s2).deck.Perm fresh_deck
    rw [hst]; simpa [hs2deck] using hperm
  · show (deal_hole_cards s2).deck_pointer =
      2 * (deal_hole_cards s2).players.length + phase_extra (deal_hole_cards s2).phase
    rw [hst]
    simp [hs2players, hs2ptr, phase_extra]
  · show (deal_hole_cards s2).board.length = board_len_for (deal_hole_cards s2).phase
    rw [hst]
    simp [hs2board, board_len_for]
  · show (deal_hole_cards s2).burned.length = burned_len_for (deal_hole_cards s2).phase
    rw [hst]
    simp [hs2burned, burned_len_for]
  · show (deal_hole_cards s2).hands.map Prod.fst = (deal_hole_cards s2).players
    rw [hst]
    simpa [hs2players] using hh.1
  · show ((handsJoin (deal_hole_cards s2) ++ (deal_hole_cards s2).burned
        ++ (deal_hole_cards s2).board : List String) : Multiset String)
      = (((deal_hole_cards s2).deck.take (deal_hole_cards s2).deck_pointer : List String) : Multiset String)
    have hburned : (deal_hole_cards s2).burned = [] := by rw [hst]; exact hs2burned
    have hboard : (deal_hole_cards s2).board = [] := by rw [hst]; exact hs2board
    have hdeck : (deal_hole_cards s2).deck = shuffled := by rw [hst]; exact hs2deck
    have hptr2 : (deal_hole_cards s2).deck_pointer = 2 * players.length := by
      rw [hst]; simp [hs2ptr, hs2players]
    rw [hburned, hboard, hdeck, hptr2, List.append_nil, List.append_nil]
    have := hh.2
    rw [hs2ptr, hs2deck, List.drop_zero] at this
    simpa [hs2players] using this

/-! ## Invariant preservation -/

theorem advance_step_new_hand (d : List String) (s : GameState)
    (h : s.phase = "WAITING" ∨ s.phase = "SHOWDOWN") :
    advance_step d s = bump_version (deal_hole_cards (scan_full_deck_sim d
      (start_new_game s.players
        (if s.manual_button then s.button_index
         else (s.button_index - 1) % ((s.players.length : Nat) : Int))
        s.info_mode false))) := by
  unfold advance_step
  rw [if_pos h]

theorem advance_step_preflop (d : List String) (s : GameState) (h : s.phase = "PREFLOP") :
    advance_step d s = bump_version (deal_flop s) := by
  unfold advance_step
  rw [if_neg (by rw [h]; decide), if_pos h]

theorem advance_step_flop (d : List String) (s : GameState) (h : s.phase = "FLOP") :
    advance_step d s = bump_version (deal_turn s) := by
  unfold advance_step
  rw [if_neg (by rw [h]; decide), if_neg (by rw [h]; decide), if_pos h]

theorem advance_step_turn (d : List String) (s : GameState) (h : s.phase = "TURN") :
    advance_step d s = bump_version (deal_river s) := by
  unfold advance_step
  rw [if_neg (by rw [h]; decide), if_neg (by rw [h]; decide), if_neg (by rw [h]; decide),
    if_pos h]

theorem advance_step_river (d : List String) (s : GameState) (h : s.phase = "RIVER") :
    advance_step d s = bump_version { s with phase := "SHOWDOWN" } := by
  unfold advance_step
  rw [if_neg (by rw [h]; decide), if_neg (by rw [h]; decide), if_neg (by rw [h]; decide),
    if_neg (by rw [h]; decide), if_pos h]

theorem bump_inv (x : GameState) (h : SessionInv x) : SessionInv (bump_version x) :=
  ⟨h.nlo, h.nhi, h.phase5, h.deckperm, h.ptr, h.blen, h.brlen, h.keys, h.dealt⟩

theorem handsJoin_bump (x : GameState) : handsJoin (bump_version x) = handsJoin x := rfl

theorem deal_flop_inv (s : GameState) (hi : SessionInv s) (hp : s.phase = "PREFLOP") :
    SessionInv (deal_flop s) := by
  have hdl : s.deck.length = 52 := by rw [hi.deckperm.length_eq, fresh_deck_length]
  have hptr : s.deck_pointer = 2 * s.players.length + 0 := by
    have := hi.ptr; rw [hp] at this; simpa [phase_extra] using this
  have hbound : s.deck_pointer + 4 ≤ s.deck.length := by
    have := hi.nhi; omega
  have hbnil : s.board = [] := by
    have := hi.blen; rw [hp] at this
    simpa [board_len_for, List.length_eq_zero] using this
  have hbr : s.burned.length = 0 := by
    have := hi.brlen; rw [hp] at this; simpa [burned_len_for] using this
  rw [deal_flop_eq]
  refine ⟨hi.nlo, hi.nhi, by right; left; rfl, hi.deckperm, ?_, ?_, ?_, hi.keys, ?_⟩
  · show s.deck_pointer + 1 + 1 + 1 + 1 = 2 * s.players.length + phase_extra "FLOP"
    rw [show phase_extra "FLOP" = 4 from rfl]
    omega
  · show (3 : Nat) = board_len_for "FLOP"
    decide
  · show (s.burned ++ [s.deck.getD s.deck_pointer ""]).length = burned_len_for "FLOP"
    simp [hbr, burned_len_for]
  · show ((handsJoin s ++ (s.burned ++ [s.deck.getD s.deck_pointer ""])
        ++ [s.deck.getD (s.deck_pointer + 1) "", s.deck.getD (s.deck_pointer + 1 + 1) "",
            s.deck.getD (s.deck_pointer + 1 + 1 + 1) ""] : List String) : Multiset String)
      = ((s.deck.take (s.deck_pointer + 1 + 1 + 1 + 1) : List String) : Multiset String)
    have htake : s.deck.take (s.deck_pointer + 1 + 1 + 1 + 1)
        = s.deck.take s.deck_pointer ++ (s.deck.drop s.deck_pointer).take 4 := by
      rw [show s.deck_pointer + 1 + 1 + 1 + 1 = s.deck_pointer + 4 from rfl, List.take_add]
    rw [htake, drop_take_four s.deck s.deck_pointer hbound]
    have hb := hi.dealt
    rw [hbnil] at hb
    simp only [← Multiset.cons_coe, Multiset.coe_nil, ← Multiset.coe_add,
      ← Multiset.singleton_add, List.append_nil] at hb ⊢
    rw [← hb]
    abel

theorem deal_turn_inv (s : GameState) (hi : SessionInv s) (hp : s.phase = "FLOP") :
    SessionInv (deal_turn s) := by
  have hdl : s.deck.length = 52 := by rw [hi.deckperm.length_eq, fresh_deck_length]
  have hptr : s.deck_pointer = 2 * s.players.length + 4 := by
    have := hi.ptr; rw [hp] at this; simpa [phase_extra] using this
  have hbound : s.deck_pointer + 2 ≤ s.deck.length := by
    have := hi.nhi; omega
  have hbl : s.board.length = 3 := by
    have := hi.blen; rw [hp] at this; simpa [board_len_for] using this
  have hbr : s.burned.length = 1 := by
    have := hi.brlen; rw [hp] at this; simpa [burned_len_for] using this
  rw [deal_turn_eq]
  refine ⟨hi.nlo, hi.nhi, by right; right; left; rfl, hi.deckperm, ?_, ?_, ?_, hi.keys, ?_⟩
  · show s.deck_pointer + 1 + 1 = 2 * s.players.length + phase_extra "TURN"
    rw [show phase_extra "TURN" = 6 from rfl]
    omega
  · show (s.board ++ [s.deck.getD (s.deck_pointer + 1) ""]).length = board_len_for "TURN"
    simp [hbl, board_len_for]
  · show (s.burned ++ [s.deck.getD s.deck_pointer ""]).length = burned_len_for "TURN"
    simp [hbr, burned_len_for]
  · show ((handsJoin s ++ (s.burned ++ [s.deck.getD s.deck_pointer ""])
        ++ (s.board ++ [s.deck.getD (s.deck_pointer + 1) ""]) : List String) : Multiset String)
      = ((s.deck.take (s.deck_pointer + 1 + 1) : List String) : Multiset String)
    have htake : s.deck.take (s.deck_pointer + 1 + 1)
        = s.deck.take s.deck_pointer ++ (s.deck.drop s.deck_pointer).take 2 := by
      rw [show s.deck_pointer + 1 + 1 = s.deck_pointer + 2 from rfl, List.take_add]
    rw [htake, drop_take_two s.deck s.deck_pointer hbound]
    have hb := hi.dealt
    simp only [← Multiset.cons_coe, Multiset.coe_nil, ← Multiset.coe_add,
      ← Multiset.singleton_add] at hb ⊢
    rw [← hb]
    abel

theorem deal_river_inv (s : GameState) (hi : SessionInv s) (hp : s.phase = "TURN") :
    SessionInv (deal_river s) := by
  have hdl : s.deck.length = 52 := by rw [hi.deckperm.length_eq, fresh_deck_length]
  have hptr : s.deck_pointer = 2 * s.players.length + 6 := by
    have := hi.ptr; rw [hp] at this; simpa [phase_extra] using this
  have hbound : s.deck_pointer + 2 ≤ s.deck.length := by
    have := hi.nhi; omega
  have hbl : s.board.length = 4 := by
    have := hi.blen; rw [hp] at this; simpa [board_len_for] using this
  have hbr : s.burned.length = 2 := by
    have := hi.brlen; rw [hp] at this; simpa [burned_len_for] using this
  rw [deal_river_eq]
  refine ⟨hi.nlo, hi.nhi, by right; right; right; left; rfl, hi.deckperm, ?_, ?_, ?_, hi.keys, ?_⟩
  · show s.deck_pointer + 1 + 1 = 2 * s.players.length + phase_extra "RIVER"
    rw [show phase_extra "RIVER" = 8 from rfl]
    omega
  · show (s.board ++ [s.deck.getD (s.deck_pointer + 1) ""]).length = board_len_for "RIVER"
    simp [hbl, board_len_for]
  · show (s.burned ++ [s.deck.getD s.deck_pointer ""]).length = burned_len_for "RIVER"
    simp [hbr, burned_len_for]
  · show ((handsJoin s ++ (s.burned ++ [s.deck.getD s.deck_pointer ""])
        ++ (s.board ++ [s.deck.getD (s.deck_pointer + 1) ""]) : List String) : Multiset String)
      = ((s.deck.take (s.deck_pointer + 1 + 1) : List String) : Multiset String)
    have htake : s.deck.take (s.deck_pointer + 1 + 1)
        = s.deck.take s.deck_pointer ++ (s.deck.drop s.deck_pointer).take 2 := by
      rw [show s.deck_pointer + 1 + 1 = s.deck_pointer + 2 from rfl, List.take_add]
    rw [htake, drop_take_two s.deck s.deck_pointer hbound]
    have hb := hi.dealt
    simp only [← Multiset.cons_coe, Multiset.coe_nil, ← Multiset.coe_add,
      ← Multiset.singleton_add] at hb ⊢
    rw [← hb]
    abel

theorem showdown_phase_inv (s : GameState) (hi : SessionInv s) (hp : s.phase = "RIVER") :
    SessionInv { s with phase := "SHOWDOWN" } := by
  have hptr := hi.ptr
  have hbl := hi.blen
  have hbr := hi.brlen
  rw [hp] at hptr hbl hbr
  refine ⟨hi.nlo, hi.nhi, by right; right; right; right; rfl, hi.deckperm, ?_, ?_, ?_,
    hi.keys, hi.dealt⟩
  · show s.deck_pointer = 2 * s.players.length + phase_extra "SHOWDOWN"
    simpa [phase_extra] using hptr
  · show s.board.length = board_len_for "SHOWDOWN"
    simpa [board_len_for] using hbl
  · show s.burned.length = burned_len_for "SHOWDOWN"
    simpa [burned_len_for] using hbr

theorem advance_inv (s : GameState) (d : List String)
    (hi : SessionInv s) (hperm : d.Perm fresh_deck) : SessionInv (advance_step d s) := by
  rcases hi.phase5 with hp | hp | hp | hp | hp
  · rw [advance_step_preflop d s hp]
    exact bump_inv _ (deal_flop_inv s hi hp)
  · rw [advance_step_flop d s hp]
    exact bump_inv _ (deal_turn_inv s hi hp)
  · rw [advance_step_turn d s hp]
    exact bump_inv _ (deal_river_inv s hi hp)
  · rw [advance_step_river d s hp]
    exact bump_inv _ (showdown_phase_inv s hi hp)
  · rw [advance_step_new_hand d s (Or.inr hp)]
    exact new_hand_inv s.players _ s.info_mode false d hperm hi.nlo hi.nhi

theorem force_inv (s : GameState) (d : List String) (seat : Int)
    (hi : SessionInv s) (hperm : d.Perm fresh_deck) :
    SessionInv (force_button_step d seat s) :=
  new_hand_inv s.players (seat % ((s.players.length : Nat) : Int)) s.info_mode true d
    hperm hi.nlo hi.nhi

theorem handsJoin_congr (x y : GameState) (h : x.hands = y.hands) :
    handsJoin x = handsJoin y := by
  unfold handsJoin
  rw [h]

theorem get_inv (s : GameState) (score : List String → List String → Int)
    (mc : Snapshot) (hi : SessionInv s) : SessionInv (host_get score mc s) := by
  have hf := host_get_fields score mc s
  obtain ⟨_, hplayers, _, hphase, _, hdeck, hptr, hburned, hhands, hboard⟩ := hf
  have hjoin : handsJoin (host_get score mc s) = handsJoin s := handsJoin_congr _ _ hhands
  refine ⟨?_, ?_, ?_, ?_, ?_, ?_, ?_, ?_, ?_⟩
  · rw [hplayers]; exact hi.nlo
  · rw [hplayers]; exact hi.nhi
  · rw [hphase]; exact hi.phase5
  · rw [hdeck]; exact hi.deckperm
  · rw [hptr, hplayers, hphase]; exact hi.ptr
  · rw [hboard, hphase]; exact hi.blen
  · rw [hburned, hphase]; exact hi.brlen
  · rw [hhands, hplayers]; exact hi.keys
  · rw [hjoin, hburned, hboard, hdeck, hptr]; exact hi.dealt

theorem host_config_success (prior : Option GameState) (playersRaw : List String)
    (b : Int) (mode : String) (shuffled : List String) (s : GameState)
    (h : host_config prior playersRaw b mode shuffled = (some s, true)) :
    2 ≤ (playersRaw.map (fun p => strip p)).length ∧
    (playersRaw.map (fun p => strip p)).length ≤ 10 ∧
    s = bump_version (deal_hole_cards (scan_full_deck_sim shuffled
      (start_new_game (playersRaw.map (fun p => strip p))
        (b % (((playersRaw.map (fun p => strip p)).length : Nat) : Int))
        (if mode = INFO_FULL ∨ mode = INFO_DELAYED then mode else INFO_DELAYED)
        false))) := by
  have hbody : host_config prior playersRaw b mode shuffled =
      (if (playersRaw.map (fun p => strip p)).length < 2 ∨
          (playersRaw.map (fun p => strip p)).length > 10 ∨
          (playersRaw.map (fun p => strip p)).any (fun p => p = "")
       then (prior, false)
       else (some (bump_version (deal_hole_cards (scan_full_deck_sim shuffled
          (start_new_game (playersRaw.map (fun p => strip p))
            (b % (((playersRaw.map (fun p => strip p)).length : Nat) : Int))
            (if mode = INFO_FULL ∨ mode = INFO_DELAYED then mode else INFO_DELAYED)
            false)))), true)) := rfl
  rw [hbody] at h
  split at h
  · exact absurd (congrArg Prod.snd h) (by simp)
  · next hguard =>
    push_neg at hguard
    refine ⟨by omega, by omega, ?_⟩
    have hs := congrArg Prod.fst h
    simp only at hs
    exact (Option.some.inj hs).symm

theorem reachable_inv (s : GameState) (h : Reachable s) : SessionInv s := by
  induction h with
  | init playersRaw b mode shuffled s hperm heq =>
    obtain ⟨h2, h10, rfl⟩ := host_config_success none playersRaw b mode shuffled s heq
    exact new_hand_inv _ _ _ _ _ hperm h2 h10
  | advance s shuffled _ hperm ih => exact advance_inv s shuffled ih hperm
  | force s shuffled seat _ hperm ih => exact force_inv s shuffled seat ih hperm
  | get s score mc _ ih => exact get_inv s score mc ih

/-! ## Claim theorems -/

theorem resolve_display_info_delayed (g : GameState) (h : g.info_mode = INFO_DELAYED) :
    resolve_display_info g =
      (match PHASE_BACK g.phase with
       | none => none
       | some prev => lookupAssoc g.equity_by_phase prev) := by
  unfold resolve_display_info
  rw [h]
  rw [if_neg (by decide), if_pos rfl]

theorem host_get_core_showdown (score : List String → List String → Int)
    (mc : Snapshot) (s : GameState) (hp : s.phase = "SHOWDOWN") :
    host_get_core score mc s =
      { resolve_showdown score s with
        equity_by_phase := setSnap (resolve_showdown score s).equity_by_phase
          (resolve_showdown score s).phase
          ⟨(resolve_showdown score s).display_equities,
           (resolve_showdown score s).display_hand_ranks,
           (resolve_showdown score s).tie_probability⟩,
        last_completed_phase := some "SHOWDOWN" } := by
  simp only [host_get_core]
  rw [if_pos hp]

/-- C1 (corrected).  In delayed mode the visibility resolver
`resolve_display_info` indeed returns nothing at PREFLOP and only the
immediately preceding street's cached snapshot at FLOP/TURN/RIVER (and, when
consulted, at SHOWDOWN); but the state-read pipeline of the /host route does
not consult it at SHOWDOWN: `host_get` there installs the exact showdown
split of `resolve_showdown` as the displayed equities in every mode,
including DELAYED_EQUITY. -/
theorem claim_C1 (score : List String → List String → Int) (mc : Snapshot)
    (s : GameState) (hmode : s.info_mode = INFO_DELAYED) :
    (s.phase = "PREFLOP" → resolve_display_info s = none) ∧
    (s.phase = "FLOP" → resolve_display_info s = lookupAssoc s.equity_by_phase "PREFLOP") ∧
    (s.phase = "TURN" → resolve_display_info s = lookupAssoc s.equity_by_phase "FLOP") ∧
    (s.phase = "RIVER" → resolve_display_info s = lookupAssoc s.equity_by_phase "TURN") ∧
    (s.phase = "SHOWDOWN" → resolve_display_info s = lookupAssoc s.equity_by_phase "RIVER") ∧
    (s.phase = "SHOWDOWN" →
      (host_get score mc s).display_equities = (resolve_showdown score s).display_equities ∧
      (host_get score mc s).tie_probability = (resolve_showdown score s).tie_probability) := by
  have hd := resolve_display_info_delayed s hmode
  refine ⟨?_, ?_, ?_, ?_, ?_, ?_⟩
  · intro hp; rw [hd, hp]; rfl
  · intro hp; rw [hd, hp]; rfl
  · intro hp; rw [hd, hp]; rfl
  · intro hp; rw [hd, hp]; rfl
  · intro hp; rw [hd, hp]; rfl
  · intro hp
    have hdisp := host_get_display score mc s
    rw [hdisp.1, hdisp.2, host_get_core_showdown score mc s hp]
    exact ⟨rfl, rfl⟩

/-- C1 counterexample: in the concrete delayed-mode session, the state read
at SHOWDOWN publishes the exact showdown split [100, 0], not the cached
RIVER street estimate [60, 40]. -/
theorem claim_C1_cex :
    exS8.info_mode = INFO_DELAYED ∧
    exS8.phase = "SHOWDOWN" ∧
    lookupAssoc exS8.equity_by_phase "RIVER" = some exMCR ∧
    exMCR.equities = [60, 40] ∧
    (host_get exScore exMCR exS8).display_equities = [100, 0] ∧
    (host_get exScore exMCR exS8).display_equities ≠ [60, 40] := by
  decide

/-- C1 witness: the theorem applied to the concrete delayed-mode session at
SHOWDOWN. -/
theorem claim_C1_wit :
    resolve_display_info exS8 = lookupAssoc exS8.equity_by_phase "RIVER" ∧
    (host_get exScore exMCR exS8).display_equities =
      (resolve_showdown exScore exS8).display_equities :=
  ⟨((claim_C1 exScore exMCR exS8 (by decide)).2.2.2.2.1) (by decide),
   (((claim_C1 exScore exMCR exS8 (by decide)).2.2.2.2.2) (by decide)).1⟩

/-- C2 (code_bug, evaluated at the failing input).  In delayed mode the
/game_state projection empties the hands and descriptor fields as its comment
promises, but it passes the full shuffled deck, the deck pointer, the seat
order and the button index straight through; replaying the deterministic
dealing procedure on those published fields reconstructs every player's hole
cards exactly, so the published view does not withhold the hole cards. -/
theorem claim_C2 :
    exS8.info_mode = INFO_DELAYED ∧
    exS8.phase = "SHOWDOWN" ∧
    (game_state_json exS8).hands = [] ∧
    (game_state_json exS8).display_hand_ranks = [] ∧
    (game_state_json exS8).deck = exS8.deck ∧
    (game_state_json exS8).deck_pointer = exS8.deck_pointer ∧
    (game_state_json exS8).players = exS8.players ∧
    (game_state_json exS8).button_index = exS8.button_index ∧
    recoverHands (game_state_json exS8) = exS8.hands ∧
    exS8.hands = [("A", ["2d", "2s"]), ("B", ["2c", "2h"])] := by
  decide

theorem new_hand_version (players : List String) (btn : Int) (mode : String)
    (manual : Bool) (d : List String) :
    (bump_version (deal_hole_cards (scan_full_deck_sim d
      (start_new_game players btn mode manual)))).version = 1 := by
  show (deal_hole_cards (scan_full_deck_sim d (start_new_game players btn mode manual))).version
      + 1 = 1
  rw [deal_hole_cards_state]
  rfl

/-- C3 (corrected).  Within a hand the version counter never decreases: a
state read bumps it by exactly 1 when and only when the displayed equities
or the tie probability changed, and every street advance bumps it by exactly
1 while changing the phase.  But the new-hand transition (advance from
WAITING/SHOWDOWN, and force_button at any time) rebuilds the session with
version 0 and then bumps once, so the counter restarts at 1 and decreases
whenever the previous hand had reached a higher version. -/
theorem claim_C3 :
    (∀ (score : List String → List String → Int) (mc : Snapshot) (s : GameState),
      s.version ≤ (host_get score mc s).version ∧
      (host_get score mc s).version =
        (if (host_get score mc s).display_equities ≠ s.display_equities ∨
            (host_get score mc s).tie_probability ≠ s.tie_probability
         then s.version + 1 else s.version)) ∧
    (∀ (d : List String) (s : GameState),
      s.phase = "PREFLOP" ∨ s.phase = "FLOP" ∨ s.phase = "TURN" ∨ s.phase = "RIVER" →
      (advance_step d s).version = s.version + 1 ∧ (advance_step d s).phase ≠ s.phase) ∧
    (∀ (d : List String) (s : GameState),
      s.phase = "WAITING" ∨ s.phase = "SHOWDOWN" → (advance_step d s).version = 1) ∧
    (∀ (d : List String) (seat : Int) (s : GameState),
      (force_button_step d seat s).version = 1) := by
  refine ⟨fun score mc s => ⟨?_, host_get_version_rule score mc s⟩, ?_, ?_, ?_⟩
  · rw [host_get_version_rule]
    split
    · omega
    · omega
  · intro d s hp
    rcases hp with hp | hp | hp | hp
    · rw [advance_step_preflop d s hp, deal_flop_eq]
      refine ⟨rfl, ?_⟩
      show "FLOP" ≠ s.phase
      rw [hp]; decide
    · rw [advance_step_flop d s hp, deal_turn_eq]
      refine ⟨rfl, ?_⟩
      show "TURN" ≠ s.phase
      rw [hp]; decide
    · rw [advance_step_turn d s hp, deal_river_eq]
      refine ⟨rfl, ?_⟩
      show "RIVER" ≠ s.phase
      rw [hp]; decide
    · rw [advance_step_river d s hp]
      refine ⟨rfl, ?_⟩
      show "SHOWDOWN" ≠ s.phase
      rw [hp]; decide
  · intro d s hp
    rw [advance_step_new_hand d s hp]
    exact new_hand_version s.players _ s.info_mode false d
  · intro d seat s
    exact new_hand_version s.players (seat % ((s.players.length : Nat) : Int))
      s.info_mode true d

/-- C3 counterexample: in the concrete session the SHOWDOWN state has
version 8, and the very next advance (new hand) resets the counter to 1 — a
strict decrease observable by any poller. -/
theorem claim_C3_cex :
    exS8.version = 8 ∧
    (advance_step fresh_deck exS8).version = 1 ∧
    (advance_step fresh_deck exS8).version < exS8.version := by
  decide

/-- C3 witness: the amended rules applied to the concrete FLOP state. -/
theorem claim_C3_wit :
    (advance_step fresh_deck exS2).version = exS2.version + 1 ∧
    (advance_step fresh_deck exS2).phase ≠ exS2.phase ∧
    (force_button_step fresh_deck 1 exS2).version = 1 :=
  ⟨(claim_C3.2.1 fresh_deck exS2 (by decide)).1,
   (claim_C3.2.1 fresh_deck exS2 (by decide)).2,
   claim_C3.2.2.2 fresh_deck 1 exS2⟩

/-! ## Per-trial facts about the two equity estimators -/

theorem foldl_incAt_length (ws : List Nat) (l : List ℚ) (x : ℚ) :
    (ws.foldl (fun acc w => incAt acc w x) l).length = l.length := by
  induction ws generalizing l with
  | nil => rfl
  | cons w ws ih => rw [List.foldl_cons, ih, incAt_length]

theorem foldl_incAt_getD (ws : List Nat) (l : List ℚ) (x : ℚ) (hnd : ws.Nodup)
    (hb : ∀ w ∈ ws, w < l.length) (i : Nat) (hi : i < l.length) :
    (ws.foldl (fun acc w => incAt acc w x) l).getD i 0 =
      l.getD i 0 + (if i ∈ ws then x else 0) := by
  induction ws generalizing l with
  | nil => simp
  | cons w ws ih =>
    rw [List.foldl_cons]
    have hlen : (incAt l w x).length = l.length := incAt_length l w x
    have ih2 := ih (incAt l w x) (List.Nodup.of_cons hnd)
      (fun v hv => by rw [hlen]; exact hb v (by simp [hv])) (by rw [hlen]; exact hi)
    rw [ih2, incAt_getD l w i x hi]
    by_cases hiw : i = w
    · subst hiw
      have hnotin : i ∉ ws := by
        have := List.nodup_cons.mp hnd
        exact this.1
      simp [hnotin]
    · simp [hiw, List.mem_cons]

theorem foldl_incAt_sum (ws : List Nat) (l : List ℚ) (x : ℚ)
    (hb : ∀ w ∈ ws, w < l.length) :
    (ws.foldl (fun acc w => incAt acc w x) l).sum = l.sum + (ws.length : ℚ) * x := by
  induction ws generalizing l with
  | nil => simp
  | cons w ws ih =>
    rw [List.foldl_cons, ih (incAt l w x)
      (fun v hv => by rw [incAt_length]; exact hb v (by simp [hv])),
      incAt_sum l w x (hb w (by simp))]
    push_cast [List.length_cons]
    ring

theorem foldl_incAt_nonneg (ws : List Nat) (l : List ℚ) (x : ℚ) (hx : 0 ≤ x)
    (hl : ∀ q ∈ l, 0 ≤ q) :
    ∀ q ∈ ws.foldl (fun acc w => incAt acc w x) l, 0 ≤ q := by
  induction ws generalizing l with
  | nil => exact hl
  | cons w ws ih =>
    rw [List.foldl_cons]
    exact ih (incAt l w x) (incAt_mem_nonneg l w x hx hl)

theorem trialWinners_lt (score : List String → List String → Int)
    (hands : List (List String)) (b : List String) :
    ∀ w ∈ trialWinners score hands b, w < hands.length := by
  intro w hw
  unfold trialWinners at hw
  have := List.mem_filter.mp hw
  have hr := List.mem_range.mp this.1
  simpa using hr

theorem trialWinners_nodup (score : List String → List String → Int)
    (hands : List (List String)) (b : List String) :
    (trialWinners score hands b).Nodup := by
  unfold trialWinners
  exact (List.nodup_range _).filter _

theorem trialWinners_ne_nil (score : List String → List String → Int)
    (hands : List (List String)) (b : List String) (hh : hands ≠ []) :
    trialWinners score hands b ≠ [] := by
  unfold trialWinners
  intro hcon
  have hsc : (hands.map (fun h => score h b)) ≠ [] := by
    simpa using hh
  obtain ⟨m, hm⟩ := Option.ne_none_iff_exists'.mp
    (fun h0 => hsc (List.min?_eq_none_iff.mp h0))
  have hmem := List.min?_mem (fun a b => min_choice a b) hm
  obtain ⟨j, hj, hjm⟩ := List.mem_iff_getElem.mp hmem
  have hjmem : j ∈ (List.range (hands.map (fun h => score h b)).length).filter
      (fun i => (hands.map (fun h => score h b)).getD i 0
        = ((hands.map (fun h => score h b)).min?).getD 0) := by
    refine List.mem_filter.mpr ⟨List.mem_range.mpr hj, ?_⟩
    simp only [decide_eq_true_eq]
    rw [hm, List.getD_eq_getElem _ _ hj]
    simpa using hjm
  rw [hcon] at hjmem
  exact absurd hjmem (List.not_mem_nil j)

theorem sim_trial_root_single (score : List String → List String → Int)
    (hands : List (List String)) (board draw : List String)
    (acc : List ℚ × Nat) (w : Nat)
    (hw : trialWinners score hands (board ++ draw) = [w]) :
    sim_trial_root score hands board acc draw = (incAt acc.1 w 1, acc.2) := by
  simp only [sim_trial_root]
  rw [hw]
  simp

theorem sim_trial_root_tie (score : List String → List String → Int)
    (hands : List (List String)) (board draw : List String) (acc : List ℚ × Nat)
    (h2 : 2 ≤ (trialWinners score hands (board ++ draw)).length) :
    sim_trial_root score hands board acc draw = (acc.1, acc.2 + 1) := by
  simp only [sim_trial_root]
  rw [if_neg (by omega)]

theorem sim_trial_server_eq (score : List String → List String → Int)
    (hands : List (List String)) (board draw : List String) (acc : List ℚ × Nat) :
    sim_trial_server score hands board acc draw =
      ((trialWinners score hands (board ++ draw)).foldl
        (fun ws w => incAt ws w (1 / ((trialWinners score hands (board ++ draw)).length : ℚ)))
        acc.1,
       if 1 < (trialWinners score hands (board ++ draw)).length then acc.2 + 1 else acc.2) := by
  simp only [sim_trial_server]

/-- C4 (corrected).  In both estimators a trial with a unique best hand
awards that player one full win credit.  A tied trial increments the tie
counter by exactly one trial in both; but only src/server/equity.py splits
the unit of win credit equally among the co-best players — src/equity.py
awards no win credit at all in a tied trial. -/
theorem claim_C4 (score : List String → List String → Int)
    (hands : List (List String)) (board draw : List String)
    (acc : List ℚ × Nat) (hlen : acc.1.length = hands.length) :
    (∀ w, trialWinners score hands (board ++ draw) = [w] →
      sim_trial_root score hands board acc draw = (incAt acc.1 w 1, acc.2) ∧
      sim_trial_server score hands board acc draw = (incAt acc.1 w 1, acc.2)) ∧
    (2 ≤ (trialWinners score hands (board ++ draw)).length →
      sim_trial_root score hands board acc draw = (acc.1, acc.2 + 1) ∧
      (sim_trial_server score hands board acc draw).2 = acc.2 + 1 ∧
      (∀ i, i < hands.length →
        (sim_trial_server score hands board acc draw).1.getD i 0 =
          acc.1.getD i 0 +
            (if i ∈ trialWinners score hands (board ++ draw)
             then 1 / ((trialWinners score hands (board ++ draw)).length : ℚ)
             else 0))) := by
  constructor
  · intro w hw
    refine ⟨sim_trial_root_single score hands board draw acc w hw, ?_⟩
    rw [sim_trial_server_eq, hw]
    simp only [List.foldl_cons, List.foldl_nil, List.length_cons, List.length_nil]
    norm_num
  · intro h2
    refine ⟨sim_trial_root_tie score hands board draw acc h2, ?_, ?_⟩
    · rw [sim_trial_server_eq]
      simp only
      rw [if_pos (by omega)]
    · intro i hi
      rw [sim_trial_server_eq]
      simp only
      exact foldl_incAt_getD _ acc.1 _
        (trialWinners_nodup score hands (board ++ draw))
        (fun w hw => by rw [hlen]; exact trialWinners_lt score hands (board ++ draw) w hw)
        i (by rw [hlen]; exact hi)

/-- C4 counterexample: under an evaluator where both players tie, a trial of
the src/equity.py estimator leaves both tied players' credit at 0 — the unit
of win credit is not split (it would have to give each player 1/2). -/
theorem claim_C4_cex :
    (trialWinners exTieScore [["As", "Ad"], ["Ah", "Ac"]] ([] ++ exDraw)).length = 2 ∧
    sim_trial_root exTieScore [["As", "Ad"], ["Ah", "Ac"]] [] ([0, 0], 0) exDraw
      = ([0, 0], 1) ∧
    ([0, 0] : List ℚ) ≠ [1 / 2, 1 / 2] := by
  decide

/-- C4 witness: a sole-winner trial credits the winner with one full win in
the root estimator, and a tied trial of the server estimator gives the first
tied player exactly half a credit. -/
theorem claim_C4_wit :
    sim_trial_root exScore [["2d", "2s"], ["2c", "2h"]] [] ([0, 0], 0) exDraw
      = ([1, 0], 0) ∧
    (sim_trial_server exTieScore [["As", "Ad"], ["Ah", "Ac"]] [] ([0, 0], 0) exDraw).1.getD 0 0
      = 1 / 2 := by
  constructor
  · exact ((claim_C4 exScore [["2d", "2s"], ["2c", "2h"]] [] exDraw ([0, 0], 0) rfl).1
      0 (by decide)).1.trans (by decide)
  · have h := ((claim_C4 exTieScore [["As", "Ad"], ["Ah", "Ac"]] [] exDraw ([0, 0], 0)
      rfl).2 (by decide)).2.2 0 (by decide)
    rw [h]
    decide

theorem trial_cases (score : List String → List String → Int)
    (hands : List (List String)) (b : List String) (hh : hands ≠ []) :
    (∃ w, trialWinners score hands b = [w] ∧ w < hands.length) ∨
    2 ≤ (trialWinners score hands b).length := by
  have hne := trialWinners_ne_nil score hands b hh
  rcases hws : trialWinners score hands b with _ | ⟨w, rest⟩
  · exact absurd hws hne
  · rcases rest with _ | ⟨v, rest'⟩
    · refine Or.inl ⟨w, rfl, ?_⟩
      have : w ∈ trialWinners score hands b := by rw [hws]; simp
      exact trialWinners_lt score hands b w this
    · right
      simp

theorem foldl_root_spec (score : List String → List String → Int)
    (hands : List (List String)) (board : List String) (hh : hands ≠ [])
    (draws : List (List String)) :
    ∀ acc : List ℚ × Nat, acc.1.length = hands.length →
      ((draws.foldl (sim_trial_root score hands board) acc).1.length = hands.length ∧
       (draws.foldl (sim_trial_root score hands board) acc).2 =
         acc.2 + draws.countP (fun d => trial_is_tie score hands board d) ∧
       (∀ i, i < hands.length →
         (draws.foldl (sim_trial_root score hands board) acc).1.getD i 0 =
           acc.1.getD i 0 +
             (draws.map (fun d => trial_credit_root score hands board d i)).sum) ∧
       (draws.foldl (sim_trial_root score hands board) acc).1.sum
           + ((draws.foldl (sim_trial_root score hands board) acc).2 : ℚ) =
         acc.1.sum + (acc.2 : ℚ) + (draws.length : ℚ) ∧
       ((∀ q ∈ acc.1, 0 ≤ q) →
         ∀ q ∈ (draws.foldl (sim_trial_root score hands board) acc).1, 0 ≤ q)) := by
  induction draws with
  | nil =>
    intro acc hacc
    refine ⟨hacc, by simp, by simp, by simp, fun h => h⟩
  | cons d ds ih =>
    intro acc hacc
    rw [List.foldl_cons]
    rcases trial_cases score hands (board ++ d) hh with ⟨w, hw, hwlt⟩ | h2
    · -- unique winner trial
      rw [sim_trial_root_single score hands board d acc w hw]
      have hlen1 : (incAt acc.1 w 1).length = hands.length := by
        rw [incAt_length]; exact hacc
      obtain ⟨ql, qt, qg, qs, qn⟩ := ih (incAt acc.1 w 1, acc.2) hlen1
      have htie : trial_is_tie score hands board d = false := by
        unfold trial_is_tie
        rw [hw]
        simp
      refine ⟨ql, ?_, ?_, ?_, ?_⟩
      · rw [qt, List.countP_cons, htie]
        simp
      · intro i hi
        rw [qg i hi, incAt_getD acc.1 w i 1 (by rw [hacc]; exact hi)]
        have hcred : trial_credit_root score hands board d i =
            (if i = w then (1 : ℚ) else 0) := by
          unfold trial_credit_root
          rw [hw]
          simp [List.cons.injEq, eq_comm]
        rw [List.map_cons, List.sum_cons, hcred]
        ring
      · rw [qs, incAt_sum acc.1 w 1 (by rw [hacc]; exact hwlt)]
        push_cast [List.length_cons]
        ring
      · intro hnn
        exact qn (incAt_mem_nonneg acc.1 w 1 (by norm_num) hnn)
    · -- tied trial
      rw [sim_trial_root_tie score hands board d acc h2]
      obtain ⟨ql, qt, qg, qs, qn⟩ := ih (acc.1, acc.2 + 1) hacc
      have htie : trial_is_tie score hands board d = true := by
        unfold trial_is_tie
        simpa using h2
      refine ⟨ql, ?_, ?_, ?_, ?_⟩
      · rw [qt, List.countP_cons, htie]
        simp
        omega
      · intro i hi
        rw [qg i hi]
        have hcred : trial_credit_root score hands board d i = 0 := by
          unfold trial_credit_root
          rw [if_neg ?_]
          intro hcon
          rw [hcon] at h2
          simp at h2
        rw [List.map_cons, List.sum_cons, hcred]
        ring
      · rw [qs]
        push_cast [List.length_cons]
        ring
      · exact qn

theorem foldl_server_spec (score : List String → List String → Int)
    (hands : List (List String)) (board : List String) (hh : hands ≠ [])
    (draws : List (List String)) :
    ∀ acc : List ℚ × Nat, acc.1.length = hands.length →
      ((draws.foldl (sim_trial_server score hands board) acc).1.length = hands.length ∧
       (draws.foldl (sim_trial_server score hands board) acc).2 =
         acc.2 + draws.countP (fun d => trial_is_tie score hands board d) ∧
       (∀ i, i < hands.length →
         (draws.foldl (sim_trial_server score hands board) acc).1.getD i 0 =
           acc.1.getD i 0 +
             (draws.map (fun d => trial_credit_server score hands board d i)).sum) ∧
       (draws.foldl (sim_trial_server score hands board) acc).1.sum =
         acc.1.sum + (draws.length : ℚ) ∧
       ((∀ q ∈ acc.1, 0 ≤ q) →
         ∀ q ∈ (draws.foldl (sim_trial_server score hands board) acc).1, 0 ≤ q)) := by
  induction draws with
  | nil =>
    intro acc hacc
    refine ⟨hacc, by simp, by simp, by simp, fun h => h⟩
  | cons d ds ih =>
    intro acc hacc
    rw [List.foldl_cons, sim_trial_server_eq]
    have hne := trialWinners_ne_nil score hands (board ++ d) hh
    have hpos : 0 < (trialWinners score hands (board ++ d)).length :=
      List.length_pos.mpr hne
    have hboundw : ∀ w ∈ trialWinners score hands (board ++ d), w < acc.1.length := by
      intro w hw
      rw [hacc]
      exact trialWinners_lt score hands (board ++ d) w hw
    have hshare : (0 : ℚ) ≤ 1 / ((trialWinners score hands (board ++ d)).length : ℚ) := by
      positivity
    set share := 1 / ((trialWinners score hands (board ++ d)).length : ℚ) with hshdef
    have hlen1 : ((trialWinners score hands (board ++ d)).foldl
        (fun ws w => incAt ws w share) acc.1).length = hands.length := by
      rw [foldl_incAt_length]; exact hacc
    obtain ⟨ql, qt, qg, qs, qn⟩ := ih
      ((trialWinners score hands (board ++ d)).foldl (fun ws w => incAt ws w share) acc.1,
       if 1 < (trialWinners score hands (board ++ d)).length then acc.2 + 1 else acc.2) hlen1
    refine ⟨ql, ?_, ?_, ?_, ?_⟩
    · rw [qt]
      simp only
      rw [List.countP_cons]
      unfold trial_is_tie
      by_cases h2 : 2 ≤ (trialWinners score hands (board ++ d)).length
      · rw [if_pos (by omega)]
        simp [h2]
        omega
      · rw [if_neg (by omega)]
        simp [h2]
    · intro i hi
      rw [qg i hi]
      simp only
      rw [foldl_incAt_getD _ acc.1 share
        (trialWinners_nodup score hands (board ++ d)) hboundw i (by rw [hacc]; exact hi)]
      have hcred : trial_credit_server score hands board d i =
          (if i ∈ trialWinners score hands (board ++ d) then share else 0) := rfl
      rw [List.map_cons, List.sum_cons, hcred]
      ring
    · rw [qs]
      simp only
      rw [foldl_incAt_sum _ acc.1 share hboundw]
      have hcast : ((trialWinners score hands (board ++ d)).length : ℚ) ≠ 0 := by
        exact_mod_cast hpos.ne'
      rw [hshdef]
      push_cast [List.length_cons]
      field_simp
      ring
    · intro hnn
      exact qn (foldl_incAt_nonneg _ acc.1 share hshare hnn)

theorem getD_map_scale (l : List ℚ) (c : ℚ) (i : Nat) (hi : i < l.length) :
    (l.map (fun w => w / c * 100)).getD i 0 = l.getD i 0 / c * 100 := by
  rw [List.getD_eq_getElem _ _ (by simpa using hi), List.getD_eq_getElem _ _ hi]
  simp

/-- C5 (corrected).  In both estimators each returned win percentage is
100 × (total credit awarded to that player) / iterationCount, the tie
percentage is 100 × (number of tie trials) / iterationCount, and every win
percentage is nonnegative.  The win percentages plus the tie percentage sum
to exactly 100 in src/equity.py, but in src/server/equity.py the win
percentages alone already sum to 100, so adding the tie percentage yields
100 + tiePercent, which exceeds 100 whenever any trial tied. -/
theorem claim_C5 (score : List String → List String → Int)
    (hands : List (List String)) (board : List String)
    (draws : List (List String)) (hh : hands ≠ []) (hd : draws ≠ []) :
    (∀ i, i < hands.length →
      (calculate_equity_multi_root score hands board draws).1.getD i 0 =
        (draws.map (fun d => trial_credit_root score hands board d i)).sum
          / (draws.length : ℚ) * 100) ∧
    (∀ i, i < hands.length →
      (calculate_equity_multi_server score hands board draws).1.getD i 0 =
        (draws.map (fun d => trial_credit_server score hands board d i)).sum
          / (draws.length : ℚ) * 100) ∧
    (calculate_equity_multi_root score hands board draws).2 =
      ((draws.countP (fun d => trial_is_tie score hands board d) : Nat) : ℚ)
        / (draws.length : ℚ) * 100 ∧
    (calculate_equity_multi_server score hands board draws).2 =
      ((draws.countP (fun d => trial_is_tie score hands board d) : Nat) : ℚ)
        / (draws.length : ℚ) * 100 ∧
    (∀ q ∈ (calculate_equity_multi_root score hands board draws).1, 0 ≤ q) ∧
    (∀ q ∈ (calculate_equity_multi_server score hands board draws).1, 0 ≤ q) ∧
    (calculate_equity_multi_root score hands board draws).1.sum
      + (calculate_equity_multi_root score hands board draws).2 = 100 ∧
    (calculate_equity_multi_server score hands board draws).1.sum = 100 ∧
    (calculate_equity_multi_server score hands board draws).1.sum
      + (calculate_equity_multi_server score hands board draws).2
      = 100 + (calculate_equity_multi_server score hands board draws).2 := by
  have hN : ((draws.length : Nat) : ℚ) ≠ 0 := by
    have : draws.length ≠ 0 := fun h0 => hd (List.length_eq_zero.mp h0)
    exact_mod_cast this
  have hinit : (List.replicate hands.length (0 : ℚ)).length = hands.length :=
    List.length_replicate _ _
  obtain ⟨rl, rt, rg, rs, rn⟩ :=
    foldl_root_spec score hands board hh draws (List.replicate hands.length 0, 0) hinit
  obtain ⟨sl, st, sg, ss, sn⟩ :=
    foldl_server_spec score hands board hh draws (List.replicate hands.length 0, 0) hinit
  have hz : ∀ i, i < hands.length → (List.replicate hands.length (0 : ℚ)).getD i 0 = 0 := by
    intro i hi
    rw [List.getD_eq_getElem _ _ (by simpa using hi)]
    simp
  have hzsum : (List.replicate hands.length (0 : ℚ)).sum = 0 := by simp
  have hznn : ∀ q ∈ List.replicate hands.length (0 : ℚ), 0 ≤ q := by
    intro q hq
    rw [List.eq_of_mem_replicate hq]
  refine ⟨?_, ?_, ?_, ?_, ?_, ?_, ?_, ?_, ?_⟩
  · intro i hi
    show ((draws.foldl (sim_trial_root score hands board)
        (List.replicate hands.length 0, 0)).1.map
          (fun w => w / ((draws.length : Nat) : ℚ) * 100)).getD i 0 = _
    rw [getD_map_scale _ _ i (by rw [rl]; exact hi), rg i hi, hz i hi, zero_add]
  · intro i hi
    show ((draws.foldl (sim_trial_server score hands board)
        (List.replicate hands.length 0, 0)).1.map
          (fun w => w / ((draws.length : Nat) : ℚ) * 100)).getD i 0 = _
    rw [getD_map_scale _ _ i (by rw [sl]; exact hi), sg i hi, hz i hi, zero_add]
  · show ((draws.foldl (sim_trial_root score hands board)
        (List.replicate hands.length 0, 0)).2 : ℚ) / ((draws.length : Nat) : ℚ) * 100 = _
    rw [rt]
    push_cast
    ring
  · show ((draws.foldl (sim_trial_server score hands board)
        (List.replicate hands.length 0, 0)).2 : ℚ) / ((draws.length : Nat) : ℚ) * 100 = _
    rw [st]
    push_cast
    ring
  · intro q hq
    obtain ⟨w, hw, rfl⟩ := List.mem_map.mp hq
    have := rn hznn w hw
    positivity
  · intro q hq
    obtain ⟨w, hw, rfl⟩ := List.mem_map.mp hq
    have := sn hznn w hw
    positivity
  · show ((draws.foldl (sim_trial_root score hands board)
        (List.replicate hands.length 0, 0)).1.map
          (fun w => w / ((draws.length : Nat) : ℚ) * 100)).sum
      + ((draws.foldl (sim_trial_root score hands board)
        (List.replicate hands.length 0, 0)).2 : ℚ) / ((draws.length : Nat) : ℚ) * 100 = 100
    rw [sum_map_scale]
    have hsum := rs
    rw [hzsum] at hsum
    have : ((draws.foldl (sim_trial_root score hands board)
        (List.replicate hands.length 0, 0)).1.sum : ℚ)
        = (draws.length : ℚ)
          - ((draws.foldl (sim_trial_root score hands board)
              (List.replicate hands.length 0, 0)).2 : ℚ) := by
      push_cast at hsum ⊢
      linarith
    rw [this]
    field_simp
    ring
  · show ((draws.foldl (sim_trial_server score hands board)
        (List.replicate hands.length 0, 0)).1.map
          (fun w => w / ((draws.length : Nat) : ℚ) * 100)).sum = 100
    rw [sum_map_scale, ss, hzsum, zero_add]
    field_simp
  · show ((draws.foldl (sim_trial_server score hands board)
        (List.replicate hands.length 0, 0)).1.map
          (fun w => w / ((draws.length : Nat) : ℚ) * 100)).sum + _ = 100 + _
    rw [sum_map_scale, ss, hzsum, zero_add]
    field_simp

/-- C5 counterexample: one all-tie trial of the server estimator returns win
percentages [50, 50] with tie percentage 100, so the win percentages plus
the tie percentage total 200 — not approximately 100. -/
theorem claim_C5_cex :
    calculate_equity_multi_server exTieScore [["As", "Ad"], ["Ah", "Ac"]] [] [exDraw]
      = ([50, 50], 100) ∧
    (calculate_equity_multi_server exTieScore [["As", "Ad"], ["Ah", "Ac"]] [] [exDraw]).1.sum
      + (calculate_equity_multi_server exTieScore [["As", "Ad"], ["Ah", "Ac"]] [] [exDraw]).2
      = 200 ∧
    (200 : ℚ) ≠ 100 := by
  decide

/-- C5 witness: the theorem applied to a concrete sole-winner call. -/
theorem claim_C5_wit :
    (calculate_equity_multi_root exScore [["2d", "2s"], ["2c", "2h"]] [] [exDraw]).1.sum
      + (calculate_equity_multi_root exScore [["2d", "2s"], ["2c", "2h"]] [] [exDraw]).2
      = 100 ∧
    (calculate_equity_multi_server exScore [["2d", "2s"], ["2c", "2h"]] [] [exDraw]).1.sum
      = 100 :=
  ⟨(claim_C5 exScore [["2d", "2s"], ["2c", "2h"]] [] [exDraw] (by decide)
      (by decide)).2.2.2.2.2.2.1,
   (claim_C5 exScore [["2d", "2s"], ["2c", "2h"]] [] [exDraw] (by decide)
      (by decide)).2.2.2.2.2.2.2.1⟩

theorem showdown_winners_eq (score : List String → List String → Int) (g : GameState) :
    ((g.players.map (fun p => (p, score (lookupHand g.hands p) g.board))).filter
        (fun ps => ps.2 = showdownBest score g)).map Prod.fst =
      g.players.filter
        (fun p => score (lookupHand g.hands p) g.board = showdownBest score g) := by
  rw [List.filter_map, List.map_map]
  have h1 : (Prod.fst ∘ fun p => (p, score (lookupHand g.hands p) g.board)) = id := by
    funext p; rfl
  rw [h1, List.map_id]
  congr 1

theorem showdown_scores_snd (score : List String → List String → Int) (g : GameState) :
    (g.players.map (fun p => (p, score (lookupHand g.hands p) g.board))).map Prod.snd =
      showdownScores score g := by
  rw [List.map_map]
  rfl

theorem showdownWinnerCount_eq (score : List String → List String → Int) (g : GameState) :
    showdownWinnerCount score g =
      (g.players.filter
        (fun p => score (lookupHand g.hands p) g.board = showdownBest score g)).length := by
  unfold showdownWinnerCount showdownScores
  rw [List.filter_map]
  simp only [List.length_map]
  rfl

theorem showdownWinnerCount_pos (score : List String → List String → Int)
    (g : GameState) (hne : g.players ≠ []) : 1 ≤ showdownWinnerCount score g := by
  have hsc : showdownScores score g ≠ [] := by
    unfold showdownScores
    simpa using hne
  obtain ⟨m, hm⟩ := Option.ne_none_iff_exists'.mp
    (fun h0 => hsc (List.min?_eq_none_iff.mp h0))
  have hmem := List.min?_mem (fun a b => min_choice a b) hm
  have hbest : showdownBest score g = m := by
    unfold showdownBest
    rw [hm]
    rfl
  have : m ∈ (showdownScores score g).filter (fun sc => sc = showdownBest score g) := by
    refine List.mem_filter.mpr ⟨hmem, ?_⟩
    simp [hbest]
  unfold showdownWinnerCount
  have := List.length_pos.mpr (List.ne_nil_of_mem this)
  omega

/-- C6 (confirmed).  The showdown resolver is a pure function of the hole
cards, board and evaluator (hence deterministic and idempotent); every seat
attaining the single globally best 7-card score receives exactly
100/winnerCount percent, every other seat exactly 0, and the tie percentage
is 100 exactly when more than one seat attains the best score. -/
theorem claim_C6 (score : List String → List String → Int) (g : GameState)
    (hne : g.players ≠ []) (hnd : g.players.Nodup) :
    1 ≤ showdownWinnerCount score g ∧
    (∀ i, i < g.players.length →
      (resolve_showdown score g).display_equities.getD i 0 =
        (if score (lookupHand g.hands (g.players.getD i "")) g.board = showdownBest score g
         then (100 : ℚ) / (showdownWinnerCount score g : ℚ) else 0)) ∧
    (resolve_showdown score g).tie_probability =
      (if 1 < showdownWinnerCount score g then (100 : ℚ) else 0) := by
  refine ⟨showdownWinnerCount_pos score g hne, ?_, ?_⟩
  · intro i hi
    show ((g.players.map (fun p =>
        if p ∈ ((g.players.map (fun p => (p, score (lookupHand g.hands p) g.board))).filter
            (fun ps => ps.2 = ((g.players.map (fun p =>
              (p, score (lookupHand g.hands p) g.board))).map Prod.snd).min?.getD 0)).map Prod.fst
        then (100 : ℚ) / ((((g.players.map (fun p =>
            (p, score (lookupHand g.hands p) g.board))).filter
            (fun ps => ps.2 = ((g.players.map (fun p =>
              (p, score (lookupHand g.hands p) g.board))).map Prod.snd).min?.getD 0)).map
                Prod.fst).length : ℚ)
        else 0)).getD i 0) = _
    rw [showdown_scores_snd score g]
    rw [show ((showdownScores score g).min?.getD 0) = showdownBest score g from rfl]
    rw [showdown_winners_eq score g]
    rw [List.getD_eq_getElem _ _ (by simpa using hi), List.getElem_map]
    have hmem : g.players[i] ∈ g.players := List.getElem_mem _
    have hgetD : g.players.getD i "" = g.players[i] := List.getD_eq_getElem _ _ hi
    rw [hgetD]
    by_cases hc : score (lookupHand g.hands g.players[i]) g.board = showdownBest score g
    · rw [if_pos, if_pos hc]
      · rw [showdownWinnerCount_eq score g]
      · exact List.mem_filter.mpr ⟨hmem, by simpa using hc⟩
    · rw [if_neg, if_neg hc]
      intro hcon
      exact hc (by simpa using (List.mem_filter.mp hcon).2)
  · show (if 1 < (((g.players.map (fun p =>
        (p, score (lookupHand g.hands p) g.board))).filter
        (fun ps => ps.2 = ((g.players.map (fun p =>
          (p, score (lookupHand g.hands p) g.board))).map Prod.snd).min?.getD 0)).map
            Prod.fst).length
      then (100 : ℚ) else 0) = _
    rw [showdown_scores_snd score g]
    rw [show ((showdownScores score g).min?.getD 0) = showdownBest score g from rfl]
    rw [showdown_winners_eq score g, showdownWinnerCount_eq score g]

/-- C6 witness: the designed tie fixture — two equal-strength hands split
exactly 50.0 / 50.0 with tie percentage 100. -/
theorem claim_C6_wit :
    (resolve_showdown exTieScore exTieState).display_equities.getD 0 0 = 50 ∧
    (resolve_showdown exTieScore exTieState).display_equities.getD 1 0 = 50 ∧
    (resolve_showdown exTieScore exTieState).tie_probability = 100 := by
  have h := claim_C6 exTieScore exTieState (by decide) (by decide)
  refine ⟨?_, ?_, ?_⟩
  · rw [h.2.1 0 (by decide)]; decide
  · rw [h.2.1 1 (by decide)]; decide
  · rw [h.2.2]; decide

theorem exS0_reachable : Reachable exS0 :=
  Reachable.init ["A", "B"] 0 INFO_DELAYED fresh_deck exS0 (List.Perm.refl _) (by decide)

theorem exS8_reachable : Reachable exS8 :=
  Reachable.advance exS7 fresh_deck
    (Reachable.get exS6 exScore exMCR
      (Reachable.advance exS5 fresh_deck
        (Reachable.get exS4 exScore exMCT
          (Reachable.advance exS3 fresh_deck
            (Reachable.get exS2 exScore exMCF
              (Reachable.advance exS1 fresh_deck
                (Reachable.get exS0 exScore exMCP exS0_reachable)
                (List.Perm.refl _)))
            (List.Perm.refl _)))
        (List.Perm.refl _)))
    (List.Perm.refl _)

/-- C7 (confirmed).  Every reachable session state has a board whose length
matches its phase (0 at PREFLOP, 3 at FLOP, 4 at TURN, 5 at RIVER and
SHOWDOWN; WAITING never survives a step since dealing runs immediately), and
the new-hand advance from WAITING or SHOWDOWN moves the button to
(buttonIndex - 1) mod N unless the manual-override flag is set, in which
case the button stays and the flag is cleared in the new hand's state. -/
theorem claim_C7 (s : GameState) (h : Reachable s) :
    (s.board.length = board_len_for s.phase ∧
     (s.phase = "PREFLOP" ∨ s.phase = "FLOP" ∨ s.phase = "TURN" ∨ s.phase = "RIVER" ∨
      s.phase = "SHOWDOWN")) ∧
    (∀ d : List String, s.phase = "WAITING" ∨ s.phase = "SHOWDOWN" →
      (advance_step d s).button_index =
        (if s.manual_button then s.button_index
         else (s.button_index - 1) % ((s.players.length : Nat) : Int)) ∧
      (advance_step d s).manual_button = false) := by
  have hi := reachable_inv s h
  refine ⟨⟨hi.blen, hi.phase5⟩, ?_⟩
  intro d hwd
  rw [advance_step_new_hand d s hwd]
  constructor
  · show (deal_hole_cards (scan_full_deck_sim d (start_new_game s.players
        (if s.manual_button then s.button_index
         else (s.button_index - 1) % ((s.players.length : Nat) : Int))
        s.info_mode false))).button_index = _
    rw [deal_hole_cards_state]
    rfl
  · show (deal_hole_cards (scan_full_deck_sim d (start_new_game s.players
        (if s.manual_button then s.button_index
         else (s.button_index - 1) % ((s.players.length : Nat) : Int))
        s.info_mode false))).manual_button = false
    rw [deal_hole_cards_state]
    rfl

/-- C7 witness: the concrete reachable SHOWDOWN state has a 5-card board,
and its new-hand advance clears the override flag. -/
theorem claim_C7_wit :
    exS8.board.length = 5 ∧
    (advance_step fresh_deck exS8).manual_button = false := by
  have h := claim_C7 exS8 exS8_reachable
  exact ⟨h.1.1.trans (by decide), (h.2 fresh_deck (Or.inr (by decide))).2⟩

theorem POSITION_MAP_exists (n : Nat) (h2 : 2 ≤ n) (h10 : n ≤ 10) :
    ∃ ls, POSITION_MAP n = some ls := by
  interval_cases n <;> exact ⟨_, rfl⟩

theorem POSITION_MAP_length (n : Nat) (ls : List String)
    (h : POSITION_MAP n = some ls) : ls.length = n := by
  unfold POSITION_MAP at h
  split_ifs at h <;> simp_all <;> subst h <;> decide

theorem POSITION_MAP_nodup (n : Nat) (ls : List String)
    (h : POSITION_MAP n = some ls) : ls.Nodup := by
  unfold POSITION_MAP at h
  split_ifs at h <;> simp_all <;> subst h <;> decide

theorem POSITION_MAP_btn (n : Nat) (ls : List String)
    (h : POSITION_MAP n = some ls) : ls.getD 0 "" = "BTN" := by
  unfold POSITION_MAP at h
  split_ifs at h <;> simp_all <;> subst h <;> decide

theorem emod_toNat_eq (b : Int) (i n : Nat) (hb0 : 0 ≤ b) (hn : 0 < n) :
    ((b + (i : Int)) % ((n : Nat) : Int)).toNat = (b.toNat + i) % n := by
  have hbe : b = ((b.toNat : Nat) : Int) := (Int.toNat_of_nonneg hb0).symm
  rw [hbe]
  rw [show (((b.toNat : Nat) : Int) + (i : Int)) = (((b.toNat + i : Nat) : Nat) : Int) by
    push_cast; ring]
  rw [← Int.natCast_mod]
  exact Int.toNat_natCast _

theorem get_positions_supported (players : List String) (b : Int) (ls : List String)
    (hls : POSITION_MAP players.length = some ls) :
    get_positions players b = (List.range players.length).map (fun (i : Nat) =>
      (players.getD (((b + (i : Int)) % ((players.length : Nat) : Int)).toNat) "",
       ls.getD i "")) := by
  simp only [get_positions]
  rw [hls]

theorem get_positions_server_supported (players : List String) (b : Int) (ls : List String)
    (hls : POSITION_MAP players.length = some ls) :
    get_positions_server players b = (List.range ls.length).map (fun (i : Nat) =>
      (players.getD (((b + (i : Int)) % ((players.length : Nat) : Int)).toNat) "",
       ls.getD i "")) := by
  simp only [get_positions_server]
  rw [hls]
  rfl

theorem get_positions_fst (players : List String) (b : Int)
    (hn : 0 < players.length) (hb0 : 0 ≤ b) (ls : List String)
    (hls : POSITION_MAP players.length = some ls) :
    (get_positions players b).map Prod.fst = players.rotate b.toNat := by
  rw [get_positions_supported players b ls hls, List.map_map]
  apply List.ext_getElem?
  intro i
  by_cases hi : i < players.length
  · rw [List.getElem?_rotate (by simpa using hi)]
    rw [show (i + b.toNat) % players.length = (b.toNat + i) % players.length from by
      rw [Nat.add_comm]]
    have hlt : (b.toNat + i) % players.length < players.length := Nat.mod_lt _ hn
    rw [List.getElem?_eq_getElem (by simpa using hi), List.getElem?_eq_getElem hlt]
    simp only [List.getElem_map, List.getElem_range, Function.comp_apply]
    rw [emod_toNat_eq b i players.length hb0 hn, List.getD_eq_getElem _ _ hlt]
  · rw [List.getElem?_eq_none (by simpa using Nat.le_of_not_lt hi),
      List.getElem?_eq_none (by simp [List.length_rotate]; omega)]

/-- C8 (corrected).  For supported table sizes 2–10 the position resolver is
exactly as specified: seat (buttonIndex + i) mod N receives labels[i], the
labels are the fixed distinct list for that size, the key list is the player
list rotated to start at the button (hence a bijection onto seats), the
button holder is labelled BTN, and the root and server variants agree.  For
N outside [2,10], however, neither variant signals a configuration error:
src/app.py silently falls back to generated labels BTN, Seat2, ..., SeatN,
and src/server/app.py silently returns an empty mapping. -/
theorem claim_C8 (players : List String) (b : Int)
    (h2 : 2 ≤ players.length) (h10 : players.length ≤ 10) (hnd : players.Nodup)
    (hb0 : 0 ≤ b) (hb : b < ((players.length : Nat) : Int)) :
    POSITION_MAP players.length ≠ none ∧
    ((POSITION_MAP players.length).getD []).Nodup ∧
    (get_positions players b).length = players.length ∧
    (get_positions players b).map Prod.snd = (POSITION_MAP players.length).getD [] ∧
    (get_positions players b).map Prod.fst = players.rotate b.toNat ∧
    ((get_positions players b).map Prod.fst).Perm players ∧
    (get_positions players b).getD 0 ("", "") = (players.getD b.toNat "", "BTN") ∧
    get_positions_server players b = get_positions players b := by
  obtain ⟨ls, hls⟩ := POSITION_MAP_exists players.length h2 h10
  have hlen := POSITION_MAP_length players.length ls hls
  have hn : 0 < players.length := by omega
  have hfst := get_positions_fst players b hn hb0 ls hls
  refine ⟨by rw [hls]; simp, ?_, ?_, ?_, hfst, ?_, ?_, ?_⟩
  · rw [hls]
    exact POSITION_MAP_nodup players.length ls hls
  · rw [get_positions_supported players b ls hls]
    simp
  · rw [hls, get_positions_supported players b ls hls, List.map_map]
    show (List.range players.length).map (fun i => ls.getD i "") = ls
    rw [← hlen]
    exact map_range_getD ls ""
  · rw [hfst]
    exact players.rotate_perm b.toNat
  · rw [get_positions_supported players b ls hls]
    rw [getD_map_range players.length _ 0 ("", "") hn]
    have hb' : (b + ((0 : Nat) : Int)) % ((players.length : Nat) : Int) = b := by
      rw [show ((0 : Nat) : Int) = 0 from rfl, add_zero]
      exact Int.emod_eq_of_lt hb0 hb
    rw [hb']
    rw [POSITION_MAP_btn players.length ls hls]
  · rw [get_positions_server_supported players b ls hls,
      get_positions_supported players b ls hls, hlen]

/-- C8 counterexample: with 11 players the root resolver silently produces a
full guessed mapping using fallback labels Seat2..Seat11, and the server
resolver silently returns the empty mapping — no configuration error is
signalled by either. -/
theorem claim_C8_cex :
    POSITION_MAP 11 = none ∧
    get_positions ["P1", "P2", "P3", "P4", "P5", "P6", "P7", "P8", "P9", "P10", "P11"] 0 =
      [("P1", "BTN"), ("P2", "Seat2"), ("P3", "Seat3"), ("P4", "Seat4"), ("P5", "Seat5"),
       ("P6", "Seat6"), ("P7", "Seat7"), ("P8", "Seat8"), ("P9", "Seat9"), ("P10", "Seat10"),
       ("P11", "Seat11")] ∧
    get_positions_server ["P1", "P2", "P3", "P4", "P5", "P6", "P7", "P8", "P9", "P10", "P11"] 0
      = [] := by
  decide

/-- C8 witness: the theorem applied to a concrete 3-player table with the
button on seat 1. -/
theorem claim_C8_wit :
    (get_positions ["Ann", "Bob", "Cat"] 1).map Prod.snd = ["BTN", "SB", "BB"] ∧
    (get_positions ["Ann", "Bob", "Cat"] 1).getD 0 ("", "") = ("Bob", "BTN") := by
  have h := claim_C8 ["Ann", "Bob", "Cat"] 1 (by decide) (by decide) (by decide)
    (by decide) (by decide)
  exact ⟨h.2.2.2.1.trans (by decide), h.2.2.2.2.2.2.1.trans (by decide)⟩

/-- C9 (confirmed).  In every reachable session state no card identifier
appears twice across the hole cards, the board, the burned cards and the
undealt deck remainder; in particular the hole cards and board together are
always exactly 2N + |board| pairwise distinct card identifiers. -/
theorem claim_C9 (s : GameState) (h : Reachable s) :
    (handsJoin s ++ s.board ++ s.burned ++ s.deck.drop s.deck_pointer).Nodup ∧
    (handsJoin s ++ s.board).Nodup ∧
    (handsJoin s ++ s.board).length = 2 * s.players.length + s.board.length := by
  have hi := reachable_inv s h
  have hdeck : s.deck.Nodup := hi.deckperm.nodup_iff.mpr fresh_deck_nodup
  have hfull : ((handsJoin s ++ s.board ++ s.burned ++ s.deck.drop s.deck_pointer
      : List String) : Multiset String) = ((s.deck : List String) : Multiset String) := by
    have hd := hi.dealt
    rw [show ((s.deck : List String) : Multiset String)
        = ((s.deck.take s.deck_pointer ++ s.deck.drop s.deck_pointer : List String)
          : Multiset String) from by rw [List.take_append_drop]]
    simp only [← Multiset.coe_add] at hd ⊢
    rw [← hd]
    abel
  have hfull_nodup : (handsJoin s ++ s.board ++ s.burned
      ++ s.deck.drop s.deck_pointer).Nodup := by
    have : ((handsJoin s ++ s.board ++ s.burned ++ s.deck.drop s.deck_pointer
        : List String) : Multiset String).Nodup := by
      rw [hfull]
      exact Multiset.coe_nodup.mpr hdeck
    exact Multiset.coe_nodup.mp this
  have hsub : (handsJoin s ++ s.board).Sublist
      (handsJoin s ++ s.board ++ s.burned ++ s.deck.drop s.deck_pointer) :=
    ((handsJoin s ++ s.board).sublist_append_left s.burned).trans
      ((List.sublist_append_left _ _))
  have hsub_nodup : (handsJoin s ++ s.board).Nodup := hfull_nodup.sublist hsub
  refine ⟨hfull_nodup, hsub_nodup, ?_⟩
  have hcard := congrArg Multiset.card hi.dealt
  simp only [Multiset.coe_card, List.length_append, List.length_take] at hcard
  have hdl : s.deck.length = 52 := by rw [hi.deckperm.length_eq, fresh_deck_length]
  have hptr := hi.ptr
  have hnhi := hi.nhi
  have hjlen : (handsJoin s).length = 2 * s.players.length := by
    rcases hi.phase5 with hp | hp | hp | hp | hp <;>
      (have hbl := hi.blen
       have hbr := hi.brlen
       rw [hp] at hbl hbr hptr
       simp only [board_len_for, burned_len_for, phase_extra] at hbl hbr hptr <;>
       simp_all <;> omega)
  rw [List.length_append, hjlen]

/-- C9 witness: the theorem applied to the concrete reachable SHOWDOWN
state — the 4 hole cards plus 5 board cards are 9 distinct identifiers. -/
theorem claim_C9_wit :
    (handsJoin exS8 ++ exS8.board).Nodup ∧
    (handsJoin exS8 ++ exS8.board).length = 9 := by
  have h := claim_C9 exS8 exS8_reachable
  exact ⟨h.2.1, h.2.2.trans (by decide)⟩

/-- C10 (corrected).  src/app.py rejects every configuration whose stripped
player list has fewer than 2 or more than 10 entries or contains a blank
name, returning the 400 response before any session mutation, with the prior
session untouched.  src/server/app.py also rejects out-of-range player
counts before mutating anything (and never mutates through the locked
reconfiguration path when a session exists), but it performs no blank-name
check: a configuration with a blank player name is accepted there. -/
theorem claim_C10 (prior : Option GameState) (playersRaw : List String) (b : Int)
    (mode : String) (shuffled : List String) :
    ((playersRaw.map (fun p => strip p)).length < 2 ∨
     (playersRaw.map (fun p => strip p)).length > 10 ∨
     (playersRaw.map (fun p => strip p)).any (fun p => p = "") →
      host_config prior playersRaw b mode shuffled = (prior, false)) ∧
    ((playersRaw.map (fun p => strip p)).length < 2 ∨
     (playersRaw.map (fun p => strip p)).length > 10 →
      host_config_server none playersRaw b mode shuffled = (none, false)) ∧
    (∀ g : GameState, host_config_server (some g) playersRaw b mode shuffled
      = (some g, false)) := by
  refine ⟨?_, ?_, fun g => rfl⟩
  · intro hbad
    have hbody : host_config prior playersRaw b mode shuffled =
        (if (playersRaw.map (fun p => strip p)).length < 2 ∨
            (playersRaw.map (fun p => strip p)).length > 10 ∨
            (playersRaw.map (fun p => strip p)).any (fun p => p = "")
         then (prior, false)
         else (some (bump_version (deal_hole_cards (scan_full_deck_sim shuffled
            (start_new_game (playersRaw.map (fun p => strip p))
              (b % (((playersRaw.map (fun p => strip p)).length : Nat) : Int))
              (if mode = INFO_FULL ∨ mode = INFO_DELAYED then mode else INFO_DELAYED)
              false)))), true)) := rfl
    rw [hbody, if_pos hbad]
  · intro hbad
    have hbody : host_config_server none playersRaw b mode shuffled =
        (if ¬ (2 ≤ (playersRaw.map (fun p => strip p)).length ∧
              (playersRaw.map (fun p => strip p)).length ≤ 10)
         then ((none : Option GameState), false)
         else (some (bump_version (deal_hole_cards (scan_full_deck_sim shuffled
            (start_new_game (playersRaw.map (fun p => strip p))
              (b % (((playersRaw.map (fun p => strip p)).length : Nat) : Int))
              (if mode = INFO_FULL ∨ mode = INFO_DELAYED then mode else INFO_DELAYED)
              false)))), true)) := rfl
    rw [hbody, if_pos (by omega)]

/-- C10 counterexample: a two-entry configuration whose first name strips to
blank.  src/app.py rejects it, but src/server/app.py accepts it and creates
a session whose player list contains the blank name. -/
theorem claim_C10_cex :
    (host_config_server none ["  ", "Bob"] 0 INFO_DELAYED fresh_deck).2 = true ∧
    ((host_config_server none ["  ", "Bob"] 0 INFO_DELAYED fresh_deck).1.getD
       (start_new_game [] 0 "" false)).players = ["", "Bob"] ∧
    host_config none ["  ", "Bob"] 0 INFO_DELAYED fresh_deck = (none, false) := by
  decide

/-- C10 witness: a 1-player configuration is rejected by both variants with
the (absent) prior session untouched, and the server's locked path returns
an existing session unchanged. -/
theorem claim_C10_wit :
    host_config none ["A"] 0 INFO_DELAYED fresh_deck = (none, false) ∧
    host_config_server none ["A"] 0 INFO_DELAYED fresh_deck = (none, false) ∧
    host_config_server (some exTieState) ["A", "B", "C"] 0 INFO_FULL fresh_deck
      = (some exTieState, false) :=
  ⟨(claim_C10 none ["A"] 0 INFO_DELAYED fresh_deck).1 (by decide),
   (claim_C10 none ["A"] 0 INFO_DELAYED fresh_deck).2.1 (by decide),
   (claim_C10 (some exTieState) ["A", "B", "C"] 0 INFO_FULL fresh_deck).2.2 exTieState⟩
